import Mathlib

/-!
Verification development for the version-control core of the agenticIDE
backend (src/src-tauri/src/git.rs, with the command layer in
src/src-tauri/src/lib.rs).  The repository state visible through the
git2 library is embedded as an explicit Lean structure, and each Rust
function is translated into a Lean function over that state.  Machine
resources that the Rust code only observes through the library
(HEAD resolution, the status list, the transport outcome of a network
push or fetch, the OS keyring, the SSH agent) are fields of the state,
and the functions consume them exactly the way the Rust code consumes
the corresponding library calls.
-/

set_option maxHeartbeats 1000000

/-- Association-list lookup keyed by decidable equality.  Models both
git2 lookups (remotes, references, commits by oid) and the index /
tree / working-directory maps of a repository. -/
def lookupA {α β : Type} [DecidableEq α] (k : α) : List (α × β) → Option β
  | [] => none
  | (a, b) :: t => if a = k then some b else lookupA k t

/-- Remove every binding of a key.  Models `git_index_remove_path`. -/
def eraseKey {α β : Type} [DecidableEq α] (k : α) : List (α × β) → List (α × β)
  | [] => []
  | (a, b) :: t => if a = k then eraseKey k t else (a, b) :: eraseKey k t

/-- Replace or add the binding of a key.  Models `git_index_add_path`
and reference updates. -/
def insertKey {α β : Type} [DecidableEq α] (k : α) (v : β) (l : List (α × β)) :
    List (α × β) :=
  (k, v) :: eraseKey k l

/-- Keys of an association list. -/
def keysOf {α β : Type} (l : List (α × β)) : List α := l.map Prod.fst

/-- A commit object: parent oids, message, author name, commit time in
seconds.  Oids are Nat. -/
structure CommitObj where
  parents : List Nat
  message : String
  author : String
  time : Int
deriving DecidableEq, Inhabited

/-- The git2 error codes this program inspects.  The Rust code only
ever compares against `ErrorCode::UnbornBranch`; `config` stands for
the configuration-lookup failure class raised by `Repository::signature`
when `user.name` / `user.email` are unset, so that the surfaced error
stays distinguishable from a generic failure. -/
inductive GitErrorCode
  | unbornBranch
  | notFound
  | config
  | other
deriving DecidableEq, Inhabited

/-- A git2-level error: code plus message. -/
structure GitErr where
  code : GitErrorCode
  msg : String
deriving DecidableEq, Inhabited

/-- The resolved HEAD reference: `shorthand()` and `target()`. -/
structure HeadRef where
  shorthand : Option String
  target : Option Nat
deriving DecidableEq, Inhabited

instance {ε α : Type} [DecidableEq ε] [DecidableEq α] : DecidableEq (Except ε α) :=
  fun x y =>
    match x, y with
    | .ok a, .ok b =>
      if h : a = b then .isTrue (by rw [h]) else .isFalse (by intro hc; cases hc; exact h rfl)
    | .ok _, .error _ => .isFalse (by intro hc; cases hc)
    | .error _, .ok _ => .isFalse (by intro hc; cases hc)
    | .error e, .error f =>
      if h : e = f then .isTrue (by rw [h]) else .isFalse (by intro hc; cases hc; exact h rfl)

/-- Configuration of one remote: its URL and its configured fetch
refspecs (git2 exposes them as possibly-invalid, hence `Option`). -/
structure RemoteCfg where
  url : Option String
  fetchRefspecs : List (Option String)
deriving DecidableEq, Inhabited

/-- The state of one opened repository as observed through git2.
`head` is what `Repository::head()` returns; `commits` is the object
database restricted to commits; `refs` holds the non-HEAD references
the code reads (remote-tracking branches); `localBranches` is the set
of local branch names (`find_branch(_, BranchType::Local)` succeeds on
exactly these); `headTree`, `index` and `worktree` are the three file
snapshots that determine `statuses()`; `pushOutcome` / `fetchOutcome`
are what the transport would answer if contacted; `keyring` is the OS
secret store keyed by (remote URL, username); `agentKeys` lists the
usernames for which the SSH agent holds a key; `nextOid` is the oid the
object database assigns to the next created commit; `now` is the clock
used for new signatures. -/
structure RepoState where
  head : Except GitErr HeadRef
  commits : List (Nat × CommitObj)
  refs : List (String × Nat)
  localBranches : List String
  remotes : List (String × RemoteCfg)
  userName : Option String
  userEmail : Option String
  configReadable : Bool
  headTree : List (String × String)
  index : List (String × String)
  worktree : List (String × String)
  keyring : List ((String × String) × String)
  agentKeys : List String
  pushOutcome : Except String Unit
  fetchOutcome : Except GitErr Unit
  nextOid : Nat
  now : Int
deriving DecidableEq, Inhabited

/-- Error taxonomy of the core.  The Rust code reports errors as
`anyhow` messages; the distinct constructors here correspond one-to-one
to the distinct `anyhow!` sites in git.rs, with `backend` carrying a
propagated git2 error. -/
inductive GitError
  | notARepository
  | emptyRepository
  | remoteNotFound (remote : String)
  | localBranchMissing (branch : String)
  | headNoTarget
  | authenticationFailed
  | nonFastForward
  | noUpstream (branch : String)
  | pushFailed (msg : String)
  | backend (e : GitErr)
deriving DecidableEq, Inhabited

/-- struct GitStatus of git.rs. -/
structure GitStatus where
  branch : String
  modified : List String
  untracked : List String
  staged : List String
  is_git_repo : Bool
deriving DecidableEq, Inhabited

/-- struct GitCommit of git.rs.  The source truncates the 40-hex oid
string to 8 characters for `hash`; oids here are Nat so the rendered
decimal string is kept whole. -/
structure GitCommit where
  hash : String
  message : String
  author : String
  timestamp : Int
  is_on_head : Bool
  is_on_upstream : Bool
deriving DecidableEq, Inhabited

/-- struct GitConfig of git.rs. -/
structure GitConfig where
  user_name : Option String
  user_email : Option String
  is_configured : Bool
deriving DecidableEq, Inhabited

/-- struct GitInitResult of git.rs. -/
structure GitInitResult where
  success : Bool
  message : String
  needs_config : Bool
  git_config : Option GitConfig
deriving DecidableEq, Inhabited

/-- struct GitManager of git.rs: an optional opened repository. -/
structure GitManager where
  repo : Option RepoState
deriving DecidableEq

/-- The filesystem world the free functions of git.rs operate on:
which paths hold repositories, plus the global (user-level) git
configuration that `Config::open_default` reads and whether the
default-gitignore write succeeds. -/
structure World where
  repos : List (String × RepoState)
  globalUserName : Option String
  globalUserEmail : Option String
  globalConfigReadable : Bool
  gitignoreWriteOk : Bool
deriving DecidableEq

/-- GitManager::new — `Repository::open(repo_path).ok()` never fails:
an un-openable path simply yields an empty handle. -/
def GitManager.new (w : World) (repo_path : String) : GitManager :=
  { repo := lookupA repo_path w.repos }

/-- GitManager::is_git_repo. -/
def GitManager.is_git_repo (g : GitManager) : Bool :=
  g.repo.isSome

/-- Status bit WT_MODIFIED: tracked in the index, present in the
working tree, contents differ. -/
def wtModifiedF (i w : Option String) : Bool :=
  match i, w with
  | some a, some b => decide (a ≠ b)
  | _, _ => false

/-- Status bit WT_NEW: present in the working tree, absent from the
index. -/
def wtNewF (i w : Option String) : Bool :=
  i.isNone && w.isSome

/-- Status bit WT_DELETED: in the index, absent from the working
tree. -/
def wtDeletedF (i w : Option String) : Bool :=
  i.isSome && w.isNone

/-- Status bit INDEX_MODIFIED: in HEAD and in the index, contents
differ. -/
def idxModifiedF (h i : Option String) : Bool :=
  match h, i with
  | some a, some b => decide (a ≠ b)
  | _, _ => false

/-- Status bit INDEX_NEW: in the index, absent from HEAD. -/
def idxNewF (h i : Option String) : Bool :=
  h.isNone && i.isSome

/-- Status bit INDEX_DELETED: in HEAD, absent from the index. -/
def idxDeletedF (h i : Option String) : Bool :=
  h.isSome && i.isNone

/-- A path appears in `repo.statuses(...)` iff at least one status bit
is set for it. -/
def isChanged (h i w : Option String) : Bool :=
  wtModifiedF i w || wtNewF i w || wtDeletedF i w ||
    idxModifiedF h i || idxNewF h i || idxDeletedF h i

/-- Every path mentioned by HEAD, the index or the working tree; the
candidate set the status enumeration draws from. -/
def statusPaths (s : RepoState) : List String :=
  (keysOf s.headTree ++ keysOf s.index ++ keysOf s.worktree).dedup

/-- The changed paths: exactly the entries of `repo.statuses(...)`. -/
def changedPaths (s : RepoState) : List String :=
  (statusPaths s).filter (fun p =>
    isChanged (lookupA p s.headTree) (lookupA p s.index) (lookupA p s.worktree))

/-- Destination of one status entry under the classification `match`
of get_status (git.rs lines 101-107): the first matching arm wins,
and an entry matching no arm is dropped. -/
inductive Bucket
  | modified
  | untracked
  | staged
  | dropped
deriving DecidableEq

/-- The classification `match` of get_status, in source order:
WT_MODIFIED, then WT_NEW, then INDEX_MODIFIED, then INDEX_NEW, else
drop. -/
def classifyStatus (h i w : Option String) : Bucket :=
  if wtModifiedF i w then .modified
  else if wtNewF i w then .untracked
  else if idxModifiedF h i then .staged
  else if idxNewF h i then .staged
  else .dropped

/-- Classification of one path of a repository. -/
def classifyPath (s : RepoState) (p : String) : Bucket :=
  classifyStatus (lookupA p s.headTree) (lookupA p s.index) (lookupA p s.worktree)

/-- The status snapshot built by the entry loop of get_status for a
given branch name: each changed path is appended to the list chosen by
`classifyStatus`, preserving enumeration order. -/
def statusSnapshot (s : RepoState) (branch : String) : GitStatus :=
  { branch := branch
  , modified := (changedPaths s).filter (fun p => classifyPath s p = Bucket.modified)
  , untracked := (changedPaths s).filter (fun p => classifyPath s p = Bucket.untracked)
  , staged := (changedPaths s).filter (fun p => classifyPath s p = Bucket.staged)
  , is_git_repo := true }

/-- GitManager::get_status (git.rs lines 60-117).  An empty handle
reports a non-repository snapshot; an unborn HEAD falls back to the
branch name "main"; any other HEAD failure propagates. -/
def GitManager.get_status (g : GitManager) : Except GitError GitStatus :=
  match g.repo with
  | none =>
    .ok { branch := "", modified := [], untracked := [], staged := [], is_git_repo := false }
  | some s =>
    match s.head with
    | .ok hr => .ok (statusSnapshot s (hr.shorthand.getD "HEAD"))
    | .error e =>
      if e.code = GitErrorCode.unbornBranch then .ok (statusSnapshot s "main")
      else .error (GitError.backend e)

/-- GitManager::stage_file (git.rs lines 119-127): `index.add_path`
records the current working-tree content of the path in the index
(failing like git2 does when the path is absent from the working
directory), then the index is written out. -/
def GitManager.stage_file (g : GitManager) (file_path : String) :
    Except GitError RepoState :=
  match g.repo with
  | none => .error GitError.notARepository
  | some s =>
    match lookupA file_path s.worktree with
    | none =>
      .error (GitError.backend { code := GitErrorCode.notFound, msg := "path not found" })
    | some c => .ok { s with index := insertKey file_path c s.index }

/-- GitManager::unstage_file (git.rs lines 129-137): `index.remove_path`
deletes the entry of the path from the index, then the index is written
out.  Note this removes the entry outright rather than restoring the
HEAD version. -/
def GitManager.unstage_file (g : GitManager) (file_path : String) :
    Except GitError RepoState :=
  match g.repo with
  | none => .error GitError.notARepository
  | some s => .ok { s with index := eraseKey file_path s.index }

/-- struct Signature: the author/committer identity resolved by
`Repository::signature()`. -/
structure Signature where
  name : String
  email : String
deriving DecidableEq

/-- Repository::signature(): reads user.name and user.email from the
effective repository configuration and fails with a configuration
(GIT_ERROR_CONFIG) lookup error when either is unset. -/
def RepoState.signature (s : RepoState) : Except GitErr Signature :=
  match s.userName, s.userEmail with
  | none, _ =>
    .error { code := GitErrorCode.config, msg := "config value user.name was not found" }
  | some _, none =>
    .error { code := GitErrorCode.config, msg := "config value user.email was not found" }
  | some n, some e => .ok { name := n, email := e }

/-- GitManager::commit (git.rs lines 139-188).  The index is written
and its tree computed, the signature resolved, then the parent
topology is chosen from HEAD resolution: a resolving HEAD yields one
parent (its target); an unborn-branch failure yields a root commit
written to refs/heads/main with HEAD then pointed there; any other
failure propagates.  On success the new state and the oid string are
returned. -/
def GitManager.commit (g : GitManager) (message : String) :
    Except GitError (RepoState × String) :=
  match g.repo with
  | none => .error GitError.notARepository
  | some s =>
    let tree := s.index
    match s.signature with
    | .error e => .error (GitError.backend e)
    | .ok sig =>
      match s.head with
      | .ok hr =>
        match hr.target with
        | none => .error GitError.headNoTarget
        | some t =>
          match lookupA t s.commits with
          | none =>
            .error (GitError.backend
              { code := GitErrorCode.notFound, msg := "parent commit not found" })
          | some _parent =>
            let newOid := s.nextOid
            let c : CommitObj :=
              { parents := [t], message := message, author := sig.name, time := s.now }
            let s2 : RepoState :=
              { s with
                commits := (newOid, c) :: s.commits
                headTree := tree
                head := .ok { shorthand := hr.shorthand, target := some newOid }
                nextOid := s.nextOid + 1 }
            .ok (s2, toString newOid)
      | .error e =>
        if e.code = GitErrorCode.unbornBranch then
          let newOid := s.nextOid
          let c : CommitObj :=
            { parents := [], message := message, author := sig.name, time := s.now }
          let s2 : RepoState :=
            { s with
              commits := (newOid, c) :: s.commits
              headTree := tree
              refs := insertKey "refs/heads/main" newOid s.refs
              localBranches :=
                if s.localBranches.contains "main" then s.localBranches
                else "main" :: s.localBranches
              head := .ok { shorthand := some "main", target := some newOid }
              nextOid := s.nextOid + 1 }
          .ok (s2, toString newOid)
        else .error (GitError.backend e)

/-- Substring test used by the push error classification
(`error_msg.contains(..)`). -/
def containsSub (hay needle : String) : Bool :=
  decide (2 ≤ (hay.splitOn needle).length)

/-- The fixed set of conventional usernames probed against the secret
store (load_stored_credentials, git.rs line 364). -/
def candidateUsers : List String := ["git", "github", "oauth", "token"]

/-- load_stored_credentials (git.rs lines 358-374): look the remote up,
require its URL, then probe the keyring under each candidate username;
the first stored secret wins, absence yields none (the Rust error is
discarded by `.ok()` at the call site). -/
def loadStoredCredentials (s : RepoState) (remote_name : String) :
    Option (String × String) :=
  match lookupA remote_name s.remotes with
  | none => none
  | some rem =>
    match rem.url with
    | none => none
    | some url =>
      (candidateUsers.filterMap
        (fun u => (lookupA (url, u) s.keyring).map (fun secret => (u, secret)))).head?

/-- What one credential request from the transport declares. -/
structure CredentialRequest where
  usernameFromUrl : Option String
  allowsUserPassPlaintext : Bool
  allowsSshKey : Bool
deriving DecidableEq

/-- A credential the callback hands back to the transport. -/
inductive Cred
  | userpassPlaintext (username password : String)
  | sshKeyFromAgent (username : String)
  | defaultCred
deriving DecidableEq

/-- The credentials callback installed by push (git.rs lines 272-291):
plaintext user/pass when the transport allows it and both are
resolved; otherwise SSH agent keyed first by the URL-embedded
username, then by the resolved username; otherwise the platform
default credential. -/
def credentialsCallback (agentKeys : List String)
    (resolvedUsername resolvedPassword : Option String)
    (req : CredentialRequest) : Cred :=
  match (if req.allowsUserPassPlaintext then
          match resolvedUsername, resolvedPassword with
          | some u, some p => some (Cred.userpassPlaintext u p)
          | _, _ => none
         else none) with
  | some c => c
  | none =>
    match (if req.allowsSshKey then
            match req.usernameFromUrl with
            | some u =>
              if agentKeys.contains u then some (Cred.sshKeyFromAgent u)
              else
                match resolvedUsername with
                | some v =>
                  if agentKeys.contains v then some (Cred.sshKeyFromAgent v) else none
                | none => none
            | none =>
              match resolvedUsername with
              | some v =>
                if agentKeys.contains v then some (Cred.sshKeyFromAgent v) else none
              | none => none
           else none) with
    | some c => c
    | none => Cred.defaultCred

/-- A network interaction with the remote. -/
inductive NetOp
  | pushRefspec (remote : String) (refspec : String)
  | fetch (remote : String) (refspecs : List String)
deriving DecidableEq

/-- GitManager::push (git.rs lines 246-325).  Returned alongside the
result is the list of network operations performed, so that absence of
network I/O is part of the function value.  The steps, in source
order: empty handle check; the commits-to-push check (note the
`if let Ok(head)` silently skips it when HEAD resolution fails);
remote lookup; credential resolution (local only); local-branch
existence check; then the single network push, whose transport error
is classified by substrings.  The best-effort upstream link after a
successful push is a local configuration write and is swallowed. -/
def GitManager.push (g : GitManager) (remote_name branch_name : String)
    (username password : Option String) :
    Except GitError Unit × List NetOp :=
  match g.repo with
  | none => (.error GitError.notARepository, [])
  | some s =>
    let emptyCheck : Bool :=
      match s.head with
      | .ok hr => hr.target.isNone
      | .error _ => false
    if emptyCheck then (.error GitError.emptyRepository, [])
    else
      match lookupA remote_name s.remotes with
      | none => (.error (GitError.remoteNotFound remote_name), [])
      | some _rem =>
        let stored := loadStoredCredentials s remote_name
        let resolvedUsername :=
          match username with
          | some u => some u
          | none => stored.map (fun x => x.1)
        let resolvedPassword :=
          match password with
          | some p => some p
          | none => stored.map (fun x => x.2)
        let _callback := credentialsCallback s.agentKeys resolvedUsername resolvedPassword
        if (s.localBranches.contains branch_name) = false then
          (.error (GitError.localBranchMissing branch_name), [])
        else
          let refspec := "refs/heads/" ++ branch_name ++ ":refs/heads/" ++ branch_name
          let op := NetOp.pushRefspec remote_name refspec
          match s.pushOutcome with
          | .ok _ => (.ok (), [op])
          | .error m =>
            if containsSub m "authentication" || containsSub m "403" ||
                containsSub m "401" then
              (.error GitError.authenticationFailed, [op])
            else if containsSub m "non-fast-forward" then
              (.error GitError.nonFastForward, [op])
            else if containsSub m "no upstream" then
              (.error (GitError.noUpstream branch_name), [op])
            else (.error (GitError.pushFailed m), [op])

/-- GitManager::pull (git.rs lines 327-347): fetch-only; the branch
argument is received as `_branch_name` and never read.  The configured
fetch refspecs of the remote are resolved and fetched. -/
def GitManager.pull (g : GitManager) (remote_name : String) (_branch_name : String) :
    Except GitError Unit × List NetOp :=
  match g.repo with
  | none => (.error GitError.notARepository, [])
  | some s =>
    match lookupA remote_name s.remotes with
    | none =>
      (.error (GitError.backend
        { code := GitErrorCode.notFound, msg := "remote not found" }), [])
    | some rem =>
      let refspecs := rem.fetchRefspecs.filterMap id
      let op := NetOp.fetch remote_name refspecs
      match s.fetchOutcome with
      | .ok _ => (.ok (), [op])
      | .error e => (.error (GitError.backend e), [op])

/-- is_git_repository (git.rs lines 398-400). -/
def is_git_repository (w : World) (repo_path : String) : Bool :=
  (lookupA repo_path w.repos).isSome

/-- get_git_config on an opened repository (git.rs lines 403-417). -/
def getGitConfigOfRepo (s : RepoState) : Except GitError GitConfig :=
  if s.configReadable then
    .ok { user_name := s.userName, user_email := s.userEmail
        , is_configured := s.userName.isSome && s.userEmail.isSome }
  else
    .error (GitError.backend
      { code := GitErrorCode.other, msg := "configuration could not be read" })

/-- get_git_config (git.rs lines 403-417): open the repository, read
user.name and user.email, report `is_configured` iff both are set. -/
def get_git_config (w : World) (repo_path : String) : Except GitError GitConfig :=
  match lookupA repo_path w.repos with
  | none =>
    .error (GitError.backend
      { code := GitErrorCode.notFound, msg := "could not open repository" })
  | some s => getGitConfigOfRepo s

/-- set_git_config (git.rs lines 420-428). -/
def set_git_config (w : World) (repo_path name email : String) :
    Except GitError World :=
  match lookupA repo_path w.repos with
  | none =>
    .error (GitError.backend
      { code := GitErrorCode.notFound, msg := "could not open repository" })
  | some s =>
    let s2 : RepoState := { s with userName := some name, userEmail := some email }
    .ok { w with repos := insertKey repo_path s2 w.repos }

/-- create_default_gitignore (git.rs lines 528-582), content abridged
to its first patterns; the Rust constant is a fixed string of common
exclusion patterns. -/
def create_default_gitignore : String :=
  "# Dependencies\nnode_modules/\n# Build outputs\ndist/\nbuild/\ntarget/\n# Environment variables\n.env\n# Logs\n*.log\n"

/-- The repository produced by `Repository::init`: unborn HEAD, empty
object database, index and trees; its effective identity configuration
inherits the global one; the default .gitignore lands in the working
tree when the best-effort write succeeds. -/
def freshRepoState (w : World) : RepoState :=
  { head := .error { code := GitErrorCode.unbornBranch, msg := "reference not found" }
  , commits := [], refs := [], localBranches := [], remotes := []
  , userName := w.globalUserName, userEmail := w.globalUserEmail
  , configReadable := true, headTree := [], index := []
  , worktree := if w.gitignoreWriteOk then [(".gitignore", create_default_gitignore)] else []
  , keyring := [], agentKeys := [], pushOutcome := .ok ()
  , fetchOutcome := .ok (), nextOid := 0, now := 0 }

/-- init_git_repo_enhanced (git.rs lines 431-525).  On an existing
repository the call is advisory: it reports success, reads the
identity configuration to set `needs_config`, and maps a configuration
read failure to success-with-unknown-config; nothing is written.  On a
fresh path it initializes a repository, best-effort writes the default
.gitignore (failure only logged), and derives `needs_config` from the
global configuration.  The `Repository::init` hard-failure branch
(success=false) is a disk-level failure outside this state model. -/
def init_git_repo_enhanced (w : World) (repo_path : String) :
    World × GitInitResult :=
  if is_git_repository w repo_path then
    match get_git_config w repo_path with
    | .ok config =>
      if config.is_configured then
        (w, { success := true
            , message := "Git repository already exists and is properly configured"
            , needs_config := false, git_config := some config })
      else
        (w, { success := true
            , message := "Git repository exists but needs user configuration"
            , needs_config := true, git_config := some config })
    | .error _ =>
      (w, { success := true
          , message := "Git repository exists but configuration could not be read"
          , needs_config := true, git_config := none })
  else
    let w2 : World := { w with repos := insertKey repo_path (freshRepoState w) w.repos }
    if w.globalConfigReadable then
      if w.globalUserName.isSome && w.globalUserEmail.isSome then
        (w2, { success := true
             , message := "Git repository initialized successfully with global configuration"
             , needs_config := false
             , git_config := (get_git_config w2 repo_path).toOption })
      else
        (w2, { success := true
             , message := "Git repository initialized. Please configure user name and email."
             , needs_config := true
             , git_config := some { user_name := none, user_email := none, is_configured := false } })
    else
      (w2, { success := true
           , message := "Git repository initialized. Please configure user name and email."
           , needs_config := true
           , git_config := some { user_name := none, user_email := none, is_configured := false } })

/-- Command git_pull of lib.rs (lines 148-158): defaults the remote to
origin and the branch to main, opens a fresh handle, delegates to
GitManager::pull. -/
def git_pull (w : World) (project_path : String)
    (remote_name branch_name : Option String) :
    Except GitError Unit × List NetOp :=
  let remote := remote_name.getD "origin"
  let branch := branch_name.getD "main"
  GitManager.pull (GitManager.new w project_path) remote branch

/-- Commit time of an oid (0 for a missing object; the walk never
consults times of missing objects on well-formed repositories). -/
def commitTime (s : RepoState) (o : Nat) : Int :=
  ((lookupA o s.commits).map (fun c => c.time)).getD 0

/-- Parent oids of an oid. -/
def parentsOf (s : RepoState) (o : Nat) : List Nat :=
  ((lookupA o s.commits).map (fun c => c.parents)).getD []

/-- The commit with maximal commit time in a list (ties resolved
towards the earlier element): the next commit a libgit2 revwalk with
default (reverse-chronological) sorting pops from its pending set. -/
def pickMax (s : RepoState) : List Nat → Option Nat
  | [] => none
  | x :: xs =>
    match pickMax s xs with
    | none => some x
    | some y => if commitTime s y ≤ commitTime s x then some x else some y

/-- One revwalk: repeatedly pop the unvisited pending commit with the
latest commit time, emit it, and schedule its parents.  `fuel` is an
upper bound on the number of pops; `revwalk` supplies enough fuel for
the walk to run to exhaustion. -/
def walkAux (s : RepoState) : Nat → List Nat → List Nat → List Nat
  | 0, _, _ => []
  | fuel + 1, pending, visited =>
    match pickMax s (pending.filter (fun o => (visited.contains o) = false)) with
    | none => []
    | some o => o :: walkAux s fuel (pending ++ parentsOf s o) (o :: visited)

/-- Every oid the walk from `start` can ever mention: the start, all
commit oids, and all parent oids. -/
def walkPool (s : RepoState) (start : Nat) : List Nat :=
  start :: (keysOf s.commits ++ (s.commits.map (fun pc => pc.2.parents)).flatten)

/-- Fuel that provably exceeds the number of distinct oids the walk
can pop. -/
def walkFuel (s : RepoState) (start : Nat) : Nat :=
  (walkPool s start).length + 1

/-- The full revision walk from one oid, in libgit2 default order. -/
def revwalk (s : RepoState) (start : Nat) : List Nat :=
  walkAux s (walkFuel s start) [start] []

/-- Parent edge of the commit graph: `b` is a parent of `a`. -/
def parentEdge (s : RepoState) (a b : Nat) : Prop :=
  ∃ c, lookupA a s.commits = some c ∧ b ∈ c.parents

/-- `b` is an ancestor of (reachable from) `a`, reflexively. -/
def ReachableFrom (s : RepoState) (a b : Nat) : Prop :=
  Relation.ReflTransGen (parentEdge s) a b

/-- Child commits never predate their parents.  This is the
clock-consistency property of a repository under which the
reverse-chronological walk output is genuinely newest-first. -/
def timesMonotone (s : RepoState) : Bool :=
  s.commits.all (fun pc => pc.2.parents.all (fun p => commitTime s p ≤ pc.2.time))

/-- Every parent referenced by a commit exists in the object
database. -/
def graphClosed (s : RepoState) : Bool :=
  s.commits.all (fun pc => pc.2.parents.all (fun p => (lookupA p s.commits).isSome))

/-- The bounded upstream ancestor set of get_recent_commits (git.rs
lines 199-213): resolve the remote-tracking reference
refs/remotes/origin/{branch} for the HEAD shorthand and collect at
most 1000 oids of the walk from its tip; empty when the shorthand or
the reference is missing. -/
def cappedUpstreamSet (s : RepoState) (hr : HeadRef) : List Nat :=
  match hr.shorthand with
  | none => []
  | some branch_name =>
    match lookupA ("refs/remotes/origin/" ++ branch_name) s.refs with
    | none => []
    | some upOid => (revwalk s upOid).take 1000

/-- The GitCommit record built for one walked oid. -/
def commitRecordOf (s : RepoState) (upstreamSet : List Nat) (oid : Nat) : GitCommit :=
  let c := (lookupA oid s.commits).getD default
  { hash := toString oid
  , message := c.message
  , author := c.author
  , timestamp := c.time
  , is_on_head := true
  , is_on_upstream := upstreamSet.contains oid }

/-- Loop body of get_recent_commits: `find_commit` then record
construction. -/
def recentStep (s : RepoState) (upstreamSet : List Nat) (oid : Nat) :
    Except GitError GitCommit :=
  match lookupA oid s.commits with
  | none =>
    .error (GitError.backend { code := GitErrorCode.notFound, msg := "object not found" })
  | some _ => .ok (commitRecordOf s upstreamSet oid)

/-- GitManager::get_recent_commits (git.rs lines 190-244): on a
resolving HEAD, build the capped upstream ancestor set, walk from HEAD
taking at most `limit` oids, and build one record per oid; an unborn
HEAD yields the empty list; any other HEAD failure propagates. -/
def GitManager.get_recent_commits (g : GitManager) (limit : Nat) :
    Except GitError (List GitCommit) :=
  match g.repo with
  | none => .error GitError.notARepository
  | some s =>
    match s.head with
    | .ok hr =>
      let upstreamSet := cappedUpstreamSet s hr
      match hr.target with
      | none =>
        .error (GitError.backend
          { code := GitErrorCode.other, msg := "HEAD cannot start the walk" })
      | some t => ((revwalk s t).take limit).mapM (recentStep s upstreamSet)
    | .error e =>
      if e.code = GitErrorCode.unbornBranch then .ok []
      else .error (GitError.backend e)

/-! Helper lemmas about association lists. -/

theorem lookupA_mem {α β : Type} [DecidableEq α] {k : α} {v : β} :
    ∀ {l : List (α × β)}, lookupA k l = some v → (k, v) ∈ l := by
  intro l
  induction l with
  | nil => intro h; simp [lookupA] at h
  | cons a t ih =>
    intro h
    by_cases hk : a.1 = k
    · cases a with
      | mk a1 a2 =>
        simp only [lookupA] at h
        by_cases h1 : a1 = k
        · subst h1
          simp at h
          subst h
          exact List.mem_cons_self _ _
        · simp [h1] at h
          exact List.mem_cons_of_mem _ (ih h)
    · cases a with
      | mk a1 a2 =>
        simp only [lookupA] at h
        simp only at hk
        simp [hk] at h
        exact List.mem_cons_of_mem _ (ih h)

theorem lookupA_isSome_iff {α β : Type} [DecidableEq α] {k : α} :
    ∀ {l : List (α × β)}, (lookupA k l).isSome ↔ k ∈ keysOf l := by
  intro l
  induction l with
  | nil => simp [lookupA, keysOf]
  | cons a t ih =>
    cases a with
    | mk a1 a2 =>
      by_cases h1 : a1 = k
      · subst h1
        simp [lookupA, keysOf]
      · simp [lookupA, h1, keysOf] at ih ⊢
        rw [ih]
        constructor
        · exact Or.inr
        · rintro (h | h)
          · exact absurd h.symm h1
          · exact h

theorem lookupA_eraseKey_self {α β : Type} [DecidableEq α] {k : α} :
    ∀ {l : List (α × β)}, lookupA k (eraseKey k l) = none := by
  intro l
  induction l with
  | nil => simp [eraseKey, lookupA]
  | cons a t ih =>
    cases a with
    | mk a1 a2 =>
      by_cases h1 : a1 = k
      · simp [eraseKey, h1, ih]
      · simp [eraseKey, h1, lookupA, ih]

theorem lookupA_eraseKey_ne {α β : Type} [DecidableEq α] {k k2 : α} (hne : k2 ≠ k) :
    ∀ {l : List (α × β)}, lookupA k2 (eraseKey k l) = lookupA k2 l := by
  intro l
  induction l with
  | nil => simp [eraseKey]
  | cons a t ih =>
    cases a with
    | mk a1 a2 =>
      by_cases h1 : a1 = k
      · subst h1
        rw [eraseKey, if_pos rfl, ih, lookupA, if_neg (fun h => hne h.symm)]
      · rw [eraseKey, if_neg h1, lookupA, lookupA]
        by_cases h2 : a1 = k2
        · rw [if_pos h2, if_pos h2]
        · rw [if_neg h2, if_neg h2, ih]

theorem lookupA_insertKey_self {α β : Type} [DecidableEq α] {k : α} {v : β}
    {l : List (α × β)} : lookupA k (insertKey k v l) = some v := by
  simp [insertKey, lookupA]

theorem lookupA_insertKey_ne {α β : Type} [DecidableEq α] {k k2 : α} {v : β}
    {l : List (α × β)} (hne : k2 ≠ k) :
    lookupA k2 (insertKey k v l) = lookupA k2 l := by
  simp only [insertKey, lookupA]
  rw [if_neg (fun h => hne h.symm)]
  exact lookupA_eraseKey_ne hne

/-! Helper lemmas about the status classification. -/

theorem mem_statusPaths_of_head {s : RepoState} {p : String}
    (h : (lookupA p s.headTree).isSome) : p ∈ statusPaths s := by
  have := lookupA_isSome_iff.1 h
  simp [statusPaths, List.mem_dedup]
  exact Or.inl this

theorem mem_statusPaths_of_index {s : RepoState} {p : String}
    (h : (lookupA p s.index).isSome) : p ∈ statusPaths s := by
  have := lookupA_isSome_iff.1 h
  simp [statusPaths, List.mem_dedup]
  exact Or.inr (Or.inl this)

theorem mem_statusPaths_of_worktree {s : RepoState} {p : String}
    (h : (lookupA p s.worktree).isSome) : p ∈ statusPaths s := by
  have := lookupA_isSome_iff.1 h
  simp [statusPaths, List.mem_dedup]
  exact Or.inr (Or.inr this)

theorem isChanged_of_wtModified {h i w : Option String} (hf : wtModifiedF i w = true) :
    isChanged h i w = true := by
  simp [isChanged, hf]

theorem isChanged_of_wtNew {h i w : Option String} (hf : wtNewF i w = true) :
    isChanged h i w = true := by
  simp [isChanged, hf]

theorem isChanged_of_idxModified {h i w : Option String}
    (hf : idxModifiedF h i = true) : isChanged h i w = true := by
  simp [isChanged, hf]

theorem isChanged_of_idxNew {h i w : Option String} (hf : idxNewF h i = true) :
    isChanged h i w = true := by
  simp [isChanged, hf]

theorem wtModifiedF_isSome {i w : Option String} (hf : wtModifiedF i w = true) :
    i.isSome ∧ w.isSome := by
  cases i <;> cases w <;> simp [wtModifiedF] at hf ⊢

theorem wtNewF_isSome {i w : Option String} (hf : wtNewF i w = true) :
    w.isSome := by
  cases i <;> cases w <;> simp [wtNewF] at hf ⊢

theorem idxModifiedF_isSome {h i : Option String} (hf : idxModifiedF h i = true) :
    h.isSome ∧ i.isSome := by
  cases h <;> cases i <;> simp [idxModifiedF] at hf ⊢

theorem idxNewF_isSome {h i : Option String} (hf : idxNewF h i = true) :
    i.isSome := by
  cases h <;> cases i <;> simp [idxNewF] at hf ⊢

/-- Membership in the modified list of a snapshot, characterised by
the WT_MODIFIED bit alone. -/
theorem mem_snapshot_modified {s : RepoState} {br p : String} :
    p ∈ (statusSnapshot s br).modified ↔
      wtModifiedF (lookupA p s.index) (lookupA p s.worktree) = true := by
  simp only [statusSnapshot, changedPaths, List.mem_filter, decide_eq_true_eq]
  constructor
  · rintro ⟨⟨-, -⟩, hcl⟩
    simp only [classifyPath, classifyStatus] at hcl
    by_cases hm : wtModifiedF (lookupA p s.index) (lookupA p s.worktree) = true
    · exact hm
    · simp [hm] at hcl
      split at hcl <;> simp_all
      split at hcl <;> simp_all
      split at hcl <;> simp_all
  · intro hm
    refine ⟨⟨mem_statusPaths_of_index (wtModifiedF_isSome hm).1, ?_⟩, ?_⟩
    · exact isChanged_of_wtModified hm
    · simp [classifyPath, classifyStatus, hm]

/-- Membership in the untracked list of a snapshot: WT_NEW wins only
when WT_MODIFIED is clear. -/
theorem mem_snapshot_untracked {s : RepoState} {br p : String} :
    p ∈ (statusSnapshot s br).untracked ↔
      (wtModifiedF (lookupA p s.index) (lookupA p s.worktree) = false ∧
       wtNewF (lookupA p s.index) (lookupA p s.worktree) = true) := by
  simp only [statusSnapshot, changedPaths, List.mem_filter, decide_eq_true_eq]
  constructor
  · rintro ⟨⟨-, -⟩, hcl⟩
    simp only [classifyPath, classifyStatus] at hcl
    by_cases hm : wtModifiedF (lookupA p s.index) (lookupA p s.worktree) = true
    · simp [hm] at hcl
    · simp only [Bool.not_eq_true] at hm
      refine ⟨hm, ?_⟩
      simp [hm] at hcl
      by_cases hn : wtNewF (lookupA p s.index) (lookupA p s.worktree) = true
      · exact hn
      · simp [hn] at hcl
        split at hcl <;> simp_all
        split at hcl <;> simp_all
  · rintro ⟨hm, hn⟩
    refine ⟨⟨mem_statusPaths_of_worktree (wtNewF_isSome hn), ?_⟩, ?_⟩
    · exact isChanged_of_wtNew hn
    · simp [classifyPath, classifyStatus, hm, hn]

/-- Membership in the staged list of a snapshot: INDEX_MODIFIED or
INDEX_NEW, with both working-tree bits clear. -/
theorem mem_snapshot_staged {s : RepoState} {br p : String} :
    p ∈ (statusSnapshot s br).staged ↔
      (wtModifiedF (lookupA p s.index) (lookupA p s.worktree) = false ∧
       wtNewF (lookupA p s.index) (lookupA p s.worktree) = false ∧
       (idxModifiedF (lookupA p s.headTree) (lookupA p s.index) = true ∨
        idxNewF (lookupA p s.headTree) (lookupA p s.index) = true)) := by
  simp only [statusSnapshot, changedPaths, List.mem_filter, decide_eq_true_eq]
  constructor
  · rintro ⟨⟨-, -⟩, hcl⟩
    simp only [classifyPath, classifyStatus] at hcl
    by_cases hm : wtModifiedF (lookupA p s.index) (lookupA p s.worktree) = true
    · simp [hm] at hcl
    · simp only [Bool.not_eq_true] at hm
      simp [hm] at hcl
      by_cases hn : wtNewF (lookupA p s.index) (lookupA p s.worktree) = true
      · simp [hn] at hcl
      · simp only [Bool.not_eq_true] at hn
        simp [hn] at hcl
        refine ⟨hm, hn, ?_⟩
        by_cases hi : idxModifiedF (lookupA p s.headTree) (lookupA p s.index) = true
        · exact Or.inl hi
        · simp [hi] at hcl
          by_cases hj : idxNewF (lookupA p s.headTree) (lookupA p s.index) = true
          · exact Or.inr hj
          · simp [hj] at hcl
  · rintro ⟨hm, hn, hij⟩
    have hpaths : p ∈ statusPaths s := by
      rcases hij with hi | hj
      · exact mem_statusPaths_of_index (idxModifiedF_isSome hi).2
      · exact mem_statusPaths_of_index (idxNewF_isSome hj)
    have hch : isChanged (lookupA p s.headTree) (lookupA p s.index)
        (lookupA p s.worktree) = true := by
      rcases hij with hi | hj
      · exact isChanged_of_idxModified hi
      · exact isChanged_of_idxNew hj
    refine ⟨⟨hpaths, hch⟩, ?_⟩
    rcases hij with hi | hj
    · simp [classifyPath, classifyStatus, hm, hn, hi]
    · by_cases hi : idxModifiedF (lookupA p s.headTree) (lookupA p s.index) = true
      · simp [classifyPath, classifyStatus, hm, hn, hi]
      · simp [classifyPath, classifyStatus, hm, hn, hi, hj]

/-! Helper lemmas about the revision walk. -/

theorem pickMax_cons_none {s : RepoState} {x : Nat} {xs : List Nat}
    (h : pickMax s xs = none) : pickMax s (x :: xs) = some x := by
  simp [pickMax, h]

theorem pickMax_cons_some {s : RepoState} {x y : Nat} {xs : List Nat}
    (h : pickMax s xs = some y) :
    pickMax s (x :: xs) =
      if commitTime s y ≤ commitTime s x then some x else some y := by
  simp [pickMax, h]

theorem pickMax_mem {s : RepoState} :
    ∀ {l : List Nat} {o : Nat}, pickMax s l = some o → o ∈ l := by
  intro l
  induction l with
  | nil => intro o h; simp [pickMax] at h
  | cons x xs ih =>
    intro o h
    cases hp : pickMax s xs with
    | none =>
      rw [pickMax_cons_none hp] at h
      cases h
      exact List.mem_cons_self _ _
    | some y =>
      rw [pickMax_cons_some hp] at h
      by_cases hle : commitTime s y ≤ commitTime s x
      · rw [if_pos hle] at h
        cases h
        exact List.mem_cons_self _ _
      · rw [if_neg hle] at h
        cases h
        exact List.mem_cons_of_mem _ (ih hp)

theorem pickMax_le {s : RepoState} :
    ∀ {l : List Nat} {o : Nat}, pickMax s l = some o →
      ∀ x ∈ l, commitTime s x ≤ commitTime s o := by
  intro l
  induction l with
  | nil => intro o h; simp [pickMax] at h
  | cons x xs ih =>
    intro o h z hz
    cases hp : pickMax s xs with
    | none =>
      rw [pickMax_cons_none hp] at h
      cases h
      rcases List.mem_cons.1 hz with rfl | hz2
      · exact le_refl _
      · cases hxs : xs with
        | nil => subst hxs; simp at hz2
        | cons b bs =>
          subst hxs
          cases hpb : pickMax s bs with
          | none => rw [pickMax_cons_none hpb] at hp; cases hp
          | some c =>
            rw [pickMax_cons_some hpb] at hp
            by_cases hle : commitTime s c ≤ commitTime s b
            · rw [if_pos hle] at hp; cases hp
            · rw [if_neg hle] at hp; cases hp
    | some y =>
      rw [pickMax_cons_some hp] at h
      by_cases hle : commitTime s y ≤ commitTime s x
      · rw [if_pos hle] at h
        cases h
        rcases List.mem_cons.1 hz with rfl | hz2
        · exact le_refl _
        · exact le_trans (ih hp z hz2) hle
      · rw [if_neg hle] at h
        cases h
        rcases List.mem_cons.1 hz with rfl | hz2
        · exact le_of_lt (lt_of_not_le hle)
        · exact ih hp z hz2

theorem pickMax_none {s : RepoState} :
    ∀ {l : List Nat}, pickMax s l = none → l = [] := by
  intro l h
  cases l with
  | nil => rfl
  | cons x xs =>
    cases hp : pickMax s xs with
    | none => rw [pickMax_cons_none hp] at h; cases h
    | some y =>
      rw [pickMax_cons_some hp] at h
      by_cases hle : commitTime s y ≤ commitTime s x
      · rw [if_pos hle] at h; cases h
      · rw [if_neg hle] at h; cases h

theorem walkAux_succ (s : RepoState) (n : Nat) (pending visited : List Nat) :
    walkAux s (n + 1) pending visited =
      match pickMax s (pending.filter (fun o => (visited.contains o) = false)) with
      | none => []
      | some o => o :: walkAux s n (pending ++ parentsOf s o) (o :: visited) := rfl

theorem walkAux_succ_none {s : RepoState} {n : Nat} {pending visited : List Nat}
    (h : pickMax s (pending.filter (fun o => (visited.contains o) = false)) = none) :
    walkAux s (n + 1) pending visited = [] := by
  rw [walkAux_succ, h]

theorem walkAux_succ_some {s : RepoState} {n : Nat} {pending visited : List Nat}
    {o : Nat}
    (h : pickMax s (pending.filter (fun x => (visited.contains x) = false)) = some o) :
    walkAux s (n + 1) pending visited =
      o :: walkAux s n (pending ++ parentsOf s o) (o :: visited) := by
  rw [walkAux_succ, h]

theorem mem_parentsOf {s : RepoState} {o p : Nat} (h : p ∈ parentsOf s o) :
    parentEdge s o p := by
  simp only [parentsOf] at h
  cases hl : lookupA o s.commits with
  | none => rw [hl] at h; simp at h
  | some c =>
    rw [hl] at h
    simp at h
    exact ⟨c, hl, h⟩

/-- Every oid the walk emits is reachable from some pending oid. -/
theorem walkAux_sound {s : RepoState} :
    ∀ (fuel : Nat) (pending visited : List Nat) (o : Nat),
      o ∈ walkAux s fuel pending visited → ∃ a ∈ pending, ReachableFrom s a o := by
  intro fuel
  induction fuel with
  | zero => intro pending visited o h; simp [walkAux] at h
  | succ n ih =>
    intro pending visited o h
    cases hp : pickMax s (pending.filter (fun x => (visited.contains x) = false)) with
    | none => rw [walkAux_succ_none hp] at h; simp at h
    | some y =>
      rw [walkAux_succ_some hp] at h
      have hy : y ∈ pending := (List.mem_filter.1 (pickMax_mem hp)).1
      rcases List.mem_cons.1 h with heq | htail
      · subst heq
        exact ⟨_, hy, Relation.ReflTransGen.refl⟩
      · rcases ih _ _ _ htail with ⟨a, ha, hr⟩
        rcases List.mem_append.1 ha with hain | hapar
        · exact ⟨a, hain, hr⟩
        · exact ⟨y, hy, Relation.ReflTransGen.head (mem_parentsOf hapar) hr⟩

theorem timesMonotone_parent {s : RepoState} (hm : timesMonotone s = true)
    {a b : Nat} (h : parentEdge s a b) : commitTime s b ≤ commitTime s a := by
  rcases h with ⟨c, hl, hb⟩
  have hmem := lookupA_mem hl
  have h1 := (List.all_eq_true.1 hm) _ hmem
  have hb2 := (List.all_eq_true.1 h1) _ hb
  simp only [decide_eq_true_eq] at hb2
  have hct : commitTime s a = c.time := by simp [commitTime, hl]
  rw [hct]
  exact hb2

/-- With clock-consistent history, the walk output is sorted by
descending commit time; moreover all output times stay below any bound
dominating the unvisited pending commits. -/
theorem walkAux_sorted {s : RepoState} (hm : timesMonotone s = true) :
    ∀ (fuel : Nat) (pending visited : List Nat) (b : Int),
      (∀ x ∈ pending, x ∉ visited → commitTime s x ≤ b) →
      (walkAux s fuel pending visited).Sorted
          (fun x y => commitTime s y ≤ commitTime s x) ∧
        ∀ y ∈ walkAux s fuel pending visited, commitTime s y ≤ b := by
  intro fuel
  induction fuel with
  | zero => intro pending visited b hb; simp [walkAux]
  | succ n ih =>
    intro pending visited b hb
    cases hp : pickMax s (pending.filter (fun x => (visited.contains x) = false)) with
    | none => rw [walkAux_succ_none hp]; simp
    | some y =>
      rw [walkAux_succ_some hp]
      have hyf := List.mem_filter.1 (pickMax_mem hp)
      have hynv : y ∉ visited := by
        have h2 := hyf.2
        simp at h2
        exact h2
      have hyb : commitTime s y ≤ b := hb y hyf.1 hynv
      have hrec : ∀ x ∈ pending ++ parentsOf s y, x ∉ y :: visited →
          commitTime s x ≤ commitTime s y := by
        intro x hx hxv
        have hxnv : x ∉ visited := fun hv => hxv (List.mem_cons_of_mem _ hv)
        rcases List.mem_append.1 hx with hxp | hxpar
        · refine pickMax_le hp x (List.mem_filter.2 ⟨hxp, ?_⟩)
          simp [hxnv]
        · exact timesMonotone_parent hm (mem_parentsOf hxpar)
      rcases ih (pending ++ parentsOf s y) (y :: visited) (commitTime s y) hrec with
        ⟨hsorted, hbound⟩
      constructor
      · exact List.sorted_cons.2 ⟨hbound, hsorted⟩
      · intro z hz
        rcases List.mem_cons.1 hz with rfl | hz2
        · exact hyb
        · exact le_trans (hbound z hz2) hyb

/-- The walk visits every oid reachable from the pending set, given
enough fuel.  `U` is any finite superset of the oids in play that is
closed under parent edges. -/
theorem walkAux_complete {s : RepoState} {U : Finset Nat}
    (hU : ∀ a b, parentEdge s a b → b ∈ U) :
    ∀ (fuel : Nat) (pending visited : List Nat),
      (∀ x ∈ pending, x ∈ U) →
      (∀ v ∈ visited, ∀ p, parentEdge s v p → p ∈ pending ∨ p ∈ visited) →
      (U \ visited.toFinset).card < fuel →
      ∀ a o, a ∈ pending → ReachableFrom s a o →
        o ∈ visited ∨ o ∈ walkAux s fuel pending visited := by
  intro fuel
  induction fuel with
  | zero => intro pending visited hp hv hcard; omega
  | succ n ih =>
    intro pending visited hpU hvcl hcard a o ha hr
    cases hp : pickMax s (pending.filter (fun x => (visited.contains x) = false)) with
    | none =>
      have hfe := pickMax_none hp
      have hsub : ∀ x ∈ pending, x ∈ visited := by
        intro x hx
        by_contra hxv
        have hxin : x ∈ pending.filter (fun z => (visited.contains z) = false) := by
          refine List.mem_filter.2 ⟨hx, ?_⟩
          simp [hxv]
        rw [hfe] at hxin
        simp at hxin
      left
      induction hr with
      | refl => exact hsub a ha
      | tail hstep hedge ihtail =>
        rcases hvcl _ ihtail _ hedge with hin | hin
        · exact hsub _ hin
        · exact hin
    | some y =>
      rw [walkAux_succ_some hp]
      have hyf := List.mem_filter.1 (pickMax_mem hp)
      have hynv : y ∉ visited := by
        have h2 := hyf.2
        simp at h2
        exact h2
      have hyU : y ∈ U := hpU y hyf.1
      have hUnew : ∀ x ∈ pending ++ parentsOf s y, x ∈ U := by
        intro x hx
        rcases List.mem_append.1 hx with hx1 | hx2
        · exact hpU x hx1
        · exact hU y x (mem_parentsOf hx2)
      have hvnew : ∀ v ∈ y :: visited, ∀ p, parentEdge s v p →
          p ∈ pending ++ parentsOf s y ∨ p ∈ y :: visited := by
        intro v hv p hedge
        rcases List.mem_cons.1 hv with rfl | hv2
        · left
          refine List.mem_append.2 (Or.inr ?_)
          rcases hedge with ⟨c, hl, hpmem⟩
          simp [parentsOf, hl, hpmem]
        · rcases hvcl v hv2 p hedge with hin | hin
          · exact Or.inl (List.mem_append.2 (Or.inl hin))
          · exact Or.inr (List.mem_cons_of_mem _ hin)
      have hcardnew : (U \ (y :: visited).toFinset).card < n := by
        have hstrict : U \ (y :: visited).toFinset ⊂ U \ visited.toFinset := by
          refine (Finset.ssubset_iff_of_subset ?_).2 ?_
          · intro z hz
            simp at hz ⊢
            exact ⟨hz.1, hz.2.2⟩
          · refine ⟨y, ?_, ?_⟩
            · simp [hyU, hynv]
            · simp
        have hlt := Finset.card_lt_card hstrict
        omega
      have hres := ih (pending ++ parentsOf s y) (y :: visited) hUnew hvnew hcardnew a o
        (List.mem_append.2 (Or.inl ha)) hr
      rcases hres with hin | hin
      · rcases List.mem_cons.1 hin with rfl | hin2
        · right; exact List.mem_cons_self _ _
        · left; exact hin2
      · right; exact List.mem_cons_of_mem _ hin

theorem revwalk_cons {s : RepoState} {start : Nat} :
    ∃ rest, revwalk s start = start :: rest := by
  have hpick : pickMax s (([start]).filter (fun x => (([] : List Nat).contains x) = false))
      = some start := by
    simp [pickMax]
  refine ⟨walkAux s (walkPool s start).length ([start] ++ parentsOf s start) [start], ?_⟩
  have : walkFuel s start = (walkPool s start).length + 1 := rfl
  rw [revwalk, this, walkAux_succ_some hpick]

/-- Everything the walk from `start` emits is an ancestor of
`start`. -/
theorem revwalk_sound {s : RepoState} {start o : Nat}
    (h : o ∈ revwalk s start) : ReachableFrom s start o := by
  rcases walkAux_sound _ _ _ _ h with ⟨a, ha, hr⟩
  rcases List.mem_singleton.1 ha with rfl
  exact hr

/-- The walk from `start` emits every ancestor of `start`. -/
theorem revwalk_complete {s : RepoState} {start o : Nat}
    (h : ReachableFrom s start o) : o ∈ revwalk s start := by
  have hU : ∀ a b, parentEdge s a b → b ∈ (walkPool s start).toFinset := by
    intro a b hedge
    rcases hedge with ⟨c, hl, hb⟩
    have hmem := lookupA_mem hl
    refine List.mem_toFinset.2 ?_
    refine List.mem_cons_of_mem _ (List.mem_append.2 (Or.inr ?_))
    refine List.mem_flatten.2 ⟨c.parents, ?_, hb⟩
    exact List.mem_map.2 ⟨(a, c), hmem, rfl⟩
  have hres := walkAux_complete hU (walkFuel s start) [start] []
    (by intro x hx
        rcases List.mem_singleton.1 hx with rfl
        exact List.mem_toFinset.2 (List.mem_cons_self _ _))
    (by intro v hv; simp at hv)
    (by
      have h1 : ((walkPool s start).toFinset \ ([] : List Nat).toFinset).card
          ≤ (walkPool s start).length := by
        calc ((walkPool s start).toFinset \ ([] : List Nat).toFinset).card
            ≤ (walkPool s start).toFinset.card :=
              Finset.card_le_card (Finset.sdiff_subset)
          _ ≤ (walkPool s start).length := List.toFinset_card_le _
      have h2 : walkFuel s start = (walkPool s start).length + 1 := rfl
      omega)
    start o (List.mem_singleton.2 rfl) h
  rcases hres with hin | hin
  · simp at hin
  · exact hin

/-- With clock-consistent history the walk output is sorted newest
first. -/
theorem revwalk_sorted {s : RepoState} (hm : timesMonotone s = true) (start : Nat) :
    (revwalk s start).Sorted (fun x y => commitTime s y ≤ commitTime s x) := by
  refine (walkAux_sorted hm (walkFuel s start) [start] [] (commitTime s start) ?_).1
  intro x hx hxv
  rcases List.mem_singleton.1 hx with rfl
  exact le_refl _

/-- On a parent-closed object database, every ancestor of a present
commit is present. -/
theorem reachable_isSome {s : RepoState} (hc : graphClosed s = true)
    {a o : Nat} (ha : (lookupA a s.commits).isSome) (h : ReachableFrom s a o) :
    (lookupA o s.commits).isSome := by
  induction h with
  | refl => exact ha
  | tail hstep hedge ihtail =>
    rcases hedge with ⟨c, hl, hb⟩
    have hmem := lookupA_mem hl
    have h1 := (List.all_eq_true.1 hc) _ hmem
    have h2 := (List.all_eq_true.1 h1) _ hb
    simpa using h2

theorem mapM_recentStep {s : RepoState} {upSet : List Nat} :
    ∀ {l : List Nat}, (∀ o ∈ l, (lookupA o s.commits).isSome) →
      l.mapM (recentStep s upSet) = Except.ok (l.map (commitRecordOf s upSet)) := by
  intro l
  induction l with
  | nil => intro h; rfl
  | cons x xs ih =>
    intro h
    have hx := h x (List.mem_cons_self _ _)
    have hxs := ih (fun o ho => h o (List.mem_cons_of_mem _ ho))
    rw [List.mapM_cons, hxs]
    cases hl : lookupA x s.commits with
    | none => rw [hl] at hx; simp at hx
    | some c =>
      have hstep : recentStep s upSet x = Except.ok (commitRecordOf s upSet x) := by
        rw [recentStep, hl]
      rw [hstep]
      rfl

/-! Claim theorems. -/

/-- C7: for every path that is not a valid repository root, open never
fails (GitManager::new is total and returns the empty handle), the
handle reports is_git_repo() = false, is_repository(path) is false,
and every mutating operation on the handle — stage, unstage, commit,
push, pull — fails with the NotARepository error (push and pull
additionally perform no network I/O). -/
theorem c7_open_never_fails_and_mutators_reject (w : World)
    (path f msg rn bn : String)
    (h : lookupA path w.repos = none) :
    is_git_repository w path = false
    ∧ GitManager.new w path = { repo := none }
    ∧ (GitManager.new w path).is_git_repo = false
    ∧ GitManager.stage_file (GitManager.new w path) f
        = Except.error GitError.notARepository
    ∧ GitManager.unstage_file (GitManager.new w path) f
        = Except.error GitError.notARepository
    ∧ GitManager.commit (GitManager.new w path) msg
        = Except.error GitError.notARepository
    ∧ GitManager.push (GitManager.new w path) rn bn none none
        = (Except.error GitError.notARepository, [])
    ∧ GitManager.pull (GitManager.new w path) rn bn
        = (Except.error GitError.notARepository, []) := by
  have hg : GitManager.new w path = { repo := none } := by
    rw [GitManager.new, h]
  refine ⟨?_, hg, ?_, ?_, ?_, ?_, ?_, ?_⟩
  · rw [is_git_repository, h]; rfl
  · rw [hg]; rfl
  · rw [hg]; rfl
  · rw [hg]; rfl
  · rw [hg]; rfl
  · rw [hg]; rfl
  · rw [hg]; rfl

/-- Concrete instantiation of the C7 theorem: the empty world with no
repository at path p. -/
def c7World : World :=
  { repos := [], globalUserName := none, globalUserEmail := none
  , globalConfigReadable := true, gitignoreWriteOk := true }

theorem c7_open_never_fails_and_mutators_reject_witness :
    lookupA ("p") c7World.repos = none
    ∧ (is_git_repository c7World ("p") = false
      ∧ GitManager.new c7World ("p") = { repo := none }
      ∧ (GitManager.new c7World ("p")).is_git_repo = false
      ∧ GitManager.stage_file (GitManager.new c7World ("p")) ("f")
          = Except.error GitError.notARepository
      ∧ GitManager.unstage_file (GitManager.new c7World ("p")) ("f")
          = Except.error GitError.notARepository
      ∧ GitManager.commit (GitManager.new c7World ("p")) ("m")
          = Except.error GitError.notARepository
      ∧ GitManager.push (GitManager.new c7World ("p")) ("origin") ("main") none none
          = (Except.error GitError.notARepository, [])
      ∧ GitManager.pull (GitManager.new c7World ("p")) ("origin") ("main")
          = (Except.error GitError.notARepository, [])) :=
  ⟨rfl, c7_open_never_fails_and_mutators_reject c7World ("p") ("f") ("m")
    ("origin") ("main") rfl⟩

/-- C10: pull is branch-independent — GitManager::pull receives the
branch argument as `_branch_name` and never reads it, so two pulls
differing only in the branch (including through the git_pull command
defaulting) fetch the same configured refspecs from the same remote
and return identical results. -/
theorem c10_pull_branch_independent :
    (∀ (g : GitManager) (remote b1 b2 : String),
      GitManager.pull g remote b1 = GitManager.pull g remote b2)
    ∧ (∀ (w : World) (path : String) (rn b1 b2 : Option String),
      git_pull w path rn b1 = git_pull w path rn b2) :=
  ⟨fun _ _ _ _ => rfl, fun _ _ _ _ _ => rfl⟩

/-- C5: whenever the repository identity configuration lacks user.name
or user.email, commit fails before creating anything, and the error it
surfaces is the configuration-lookup failure of
Repository::signature() — distinguishable as a needs-configuration
error (code `config` naming the missing key) rather than a generic
failure. -/
theorem c5_commit_requires_identity (s : RepoState) (msg : String)
    (h : s.userName = none ∨ s.userEmail = none) :
    ∃ e, GitManager.commit { repo := some s } msg
        = Except.error (GitError.backend e)
      ∧ e.code = GitErrorCode.config
      ∧ (∀ r, GitManager.commit { repo := some s } msg ≠ Except.ok r) := by
  have hsig : ∃ e, s.signature = Except.error e ∧ e.code = GitErrorCode.config := by
    cases hn : s.userName with
    | none =>
      exact ⟨_, by rw [RepoState.signature, hn], rfl⟩
    | some n =>
      cases hm : s.userEmail with
      | none => exact ⟨_, by rw [RepoState.signature, hn, hm], rfl⟩
      | some m =>
        rcases h with h | h
        · rw [hn] at h; cases h
        · rw [hm] at h; cases h
  rcases hsig with ⟨e, he, hcode⟩
  have hc : GitManager.commit { repo := some s } msg
      = Except.error (GitError.backend e) := by
    simp only [GitManager.commit, he]
  exact ⟨e, hc, hcode, fun r hr => by rw [hc] at hr; cases hr⟩

/-- Concrete instantiation of the C5 theorem: a repository whose
user.name is unset. -/
def c5Repo : RepoState :=
  { head := .error { code := GitErrorCode.unbornBranch, msg := "reference not found" }
  , commits := [], refs := [], localBranches := [], remotes := []
  , userName := none, userEmail := none, configReadable := true
  , headTree := [], index := [], worktree := [], keyring := [], agentKeys := []
  , pushOutcome := .ok (), fetchOutcome := .ok (), nextOid := 0, now := 0 }

theorem c5_commit_requires_identity_witness :
    (c5Repo.userName = none ∨ c5Repo.userEmail = none)
    ∧ ∃ e, GitManager.commit { repo := some c5Repo } ("m")
          = Except.error (GitError.backend e)
        ∧ e.code = GitErrorCode.config
        ∧ (∀ r, GitManager.commit { repo := some c5Repo } ("m") ≠ Except.ok r) :=
  ⟨Or.inl rfl, c5_commit_requires_identity c5Repo ("m") (Or.inl rfl)⟩

/-- A repository with zero commits: HEAD resolution fails with the
unborn-branch condition, a remote named origin is configured, and no
local branch exists yet. -/
def c1Repo : RepoState :=
  { head := .error { code := GitErrorCode.unbornBranch, msg := "reference not found" }
  , commits := [], refs := [], localBranches := []
  , remotes := [("origin",
      { url := some "https://example.com/repo.git", fetchRefspecs := [] })]
  , userName := some "Alice", userEmail := some "alice@example.com"
  , configReadable := true, headTree := [], index := [], worktree := []
  , keyring := [], agentKeys := [], pushOutcome := .ok ()
  , fetchOutcome := .ok (), nextOid := 0, now := 0 }

/-- C1, failing input: on a repository with zero commits (unborn HEAD)
push does not fail with the EmptyRepository error.  The commits-to-push
check of GitManager::push is guarded by `if let Ok(head)`, which
silently skips the check exactly when HEAD resolution fails — the way
a zero-commit repository presents — contradicting both the claim and
the adjacent source comment and message (Check if there are any
commits to push / No commits to push).  The call instead falls through
to the branch-existence check and fails with LocalBranchMissing.  The
remote is still never contacted (the network trace is empty). -/
theorem c1_push_empty_repo_skips_empty_check :
    GitManager.push { repo := some c1Repo } ("origin") ("main") none none
      = (Except.error (GitError.localBranchMissing ("main")), [])
    ∧ (GitManager.push { repo := some c1Repo } ("origin") ("main") none none).1
      ≠ Except.error GitError.emptyRepository := by
  constructor
  · rfl
  · decide

/-! Helper lemmas about init_or_verify. -/

theorem init_success (w : World) (path : String) :
    (init_git_repo_enhanced w path).2.success = true := by
  unfold init_git_repo_enhanced
  split
  · cases hcfg : get_git_config w path with
    | ok config => by_cases hic : config.is_configured <;> simp [hcfg, hic]
    | error e => simp [hcfg]
  · split
    · split <;> rfl
    · rfl

theorem init_on_repo (w : World) (path : String)
    (h : (lookupA path w.repos).isSome) :
    (init_git_repo_enhanced w path).1 = w := by
  have hb : is_git_repository w path = true := by
    rw [is_git_repository, h]
  unfold init_git_repo_enhanced
  rw [hb]
  simp only [if_true]
  cases hcfg : get_git_config w path with
  | ok config => by_cases hic : config.is_configured <;> simp [hic]
  | error e => rfl

theorem init_repo_present (w : World) (path : String) :
    (lookupA path (init_git_repo_enhanced w path).1.repos).isSome := by
  by_cases h : (lookupA path w.repos).isSome
  · rw [init_on_repo w path h]; exact h
  · have hb : is_git_repository w path = false := by
      rw [is_git_repository]
      exact Bool.not_eq_true _ ▸ (by simpa using h)
    unfold init_git_repo_enhanced
    rw [hb]
    simp only [Bool.false_eq_true, if_false]
    split
    · split
      · simp [lookupA_insertKey_self]
      · simp [lookupA_insertKey_self]
    · simp [lookupA_insertKey_self]

/-- C9: init_or_verify (init_git_repo_enhanced) on a path that is
already a repository reports success without touching the world (so
existing identity configuration is untouched and the repository is not
re-initialized), sets needs_config exactly to whether the identity
configuration is incomplete, and maps a configuration read failure to
success with unknown configuration; consequently a second call after
any first call reports success and leaves the world — and the identity
configuration — of the first call unchanged. -/
theorem c9_init_or_verify_idempotent (w : World) (path : String) :
    (∀ s, lookupA path w.repos = some s →
      (init_git_repo_enhanced w path).1 = w
      ∧ (init_git_repo_enhanced w path).2.success = true
      ∧ (s.configReadable = true →
          (init_git_repo_enhanced w path).2.needs_config
            = !(s.userName.isSome && s.userEmail.isSome))
      ∧ (s.configReadable = false →
          (init_git_repo_enhanced w path).2.needs_config = true
          ∧ (init_git_repo_enhanced w path).2.git_config = none))
    ∧ ((init_git_repo_enhanced (init_git_repo_enhanced w path).1 path).1
        = (init_git_repo_enhanced w path).1
      ∧ (init_git_repo_enhanced (init_git_repo_enhanced w path).1 path).2.success
        = true) := by
  constructor
  · intro s hs
    have hsome : (lookupA path w.repos).isSome := by rw [hs]; rfl
    have hb : is_git_repository w path = true := by
      rw [is_git_repository, hs]; rfl
    have hcfg : get_git_config w path = getGitConfigOfRepo s := by
      rw [get_git_config, hs]
    refine ⟨init_on_repo w path hsome, init_success w path, ?_, ?_⟩
    · intro hcr
      have hread : getGitConfigOfRepo s
          = Except.ok { user_name := s.userName, user_email := s.userEmail
                      , is_configured := s.userName.isSome && s.userEmail.isSome } := by
        rw [getGitConfigOfRepo, if_pos hcr]
      unfold init_git_repo_enhanced
      rw [hb]
      simp only [if_true]
      rw [hcfg, hread]
      by_cases hic : (s.userName.isSome && s.userEmail.isSome) = true
      · simp [hic]
      · simp only [Bool.not_eq_true] at hic
        simp [hic]
    · intro hcr
      have hread : ∃ e, getGitConfigOfRepo s = Except.error e := by
        rw [getGitConfigOfRepo, if_neg (by rw [hcr]; exact Bool.false_ne_true)]
        exact ⟨_, rfl⟩
      rcases hread with ⟨e, he⟩
      unfold init_git_repo_enhanced
      rw [hb]
      simp only [if_true]
      rw [hcfg, he]
      exact ⟨rfl, rfl⟩
  · exact ⟨init_on_repo _ path (init_repo_present w path), init_success _ path⟩

/-- Concrete instantiation of the C9 theorem: a world holding one
configured repository. -/
def c9Repo : RepoState :=
  { head := .error { code := GitErrorCode.unbornBranch, msg := "reference not found" }
  , commits := [], refs := [], localBranches := [], remotes := []
  , userName := some "Alice", userEmail := some "alice@example.com"
  , configReadable := true, headTree := [], index := [], worktree := []
  , keyring := [], agentKeys := [], pushOutcome := .ok ()
  , fetchOutcome := .ok (), nextOid := 0, now := 0 }

def c9World : World :=
  { repos := [(("p"), c9Repo)], globalUserName := none, globalUserEmail := none
  , globalConfigReadable := true, gitignoreWriteOk := true }

theorem c9_init_or_verify_idempotent_witness :
    lookupA ("p") c9World.repos = some c9Repo
    ∧ ((init_git_repo_enhanced c9World ("p")).1 = c9World
      ∧ (init_git_repo_enhanced c9World ("p")).2.success = true
      ∧ (c9Repo.configReadable = true →
          (init_git_repo_enhanced c9World ("p")).2.needs_config
            = !(c9Repo.userName.isSome && c9Repo.userEmail.isSome))
      ∧ (c9Repo.configReadable = false →
          (init_git_repo_enhanced c9World ("p")).2.needs_config = true
          ∧ (init_git_repo_enhanced c9World ("p")).2.git_config = none))
    ∧ ((init_git_repo_enhanced (init_git_repo_enhanced c9World ("p")).1 ("p")).1
        = (init_git_repo_enhanced c9World ("p")).1
      ∧ (init_git_repo_enhanced (init_git_repo_enhanced c9World ("p")).1 ("p")).2.success
        = true) :=
  ⟨rfl, (c9_init_or_verify_idempotent c9World ("p")).1 c9Repo rfl,
    (c9_init_or_verify_idempotent c9World ("p")).2⟩

/-- The unborn-branch HEAD error of a freshly initialized
repository. -/
def c3Err : GitErr :=
  { code := GitErrorCode.unbornBranch, msg := "reference not found" }

/-- A freshly initialized repository (unborn HEAD) holding one
untracked file and an empty index: nothing is staged. -/
def c3Repo : RepoState :=
  { head := .error c3Err
  , commits := [], refs := [], localBranches := [], remotes := []
  , userName := some "Alice", userEmail := some "alice@example.com"
  , configReadable := true, headTree := [], index := []
  , worktree := [(("a.txt"), ("x"))]
  , keyring := [], agentKeys := [], pushOutcome := .ok ()
  , fetchOutcome := .ok (), nextOid := 0, now := 0 }

/-- C3, counterexample: on an unborn-HEAD repository with one
untracked file and nothing staged, get_status succeeds with branch
main but the untracked list is not empty — the status enumeration
still runs, so the claim that all three change lists are empty beyond
the branch name (when nothing is staged) is false on this input. -/
theorem c3_unborn_status_counterexample :
    ∃ st, GitManager.get_status { repo := some c3Repo } = Except.ok st
      ∧ st.branch = "main" ∧ st.staged = [] ∧ st.modified = []
      ∧ st.untracked = [("a.txt")] ∧ st.untracked ≠ [] := by
  refine ⟨statusSnapshot c3Repo ("main"), rfl, rfl, ?_, ?_, ?_, ?_⟩ <;> decide

/-- C3, amended: for every repository whose HEAD resolution fails with
the unborn-branch condition, get_status succeeds and uses the fixed
default branch name main, with the three change lists computed from
the working tree and index exactly as in the normal case — so they are
empty exactly when the repository has no changed paths, not merely
when nothing is staged; any other HEAD-resolution failure makes
get_status fail with the propagated error. -/
theorem c3_unborn_status_default_branch (s : RepoState) (e : GitErr)
    (he : s.head = Except.error e) :
    (e.code = GitErrorCode.unbornBranch →
      GitManager.get_status { repo := some s }
          = Except.ok (statusSnapshot s ("main"))
      ∧ (statusSnapshot s ("main")).branch = "main"
      ∧ (statusSnapshot s ("main")).is_git_repo = true
      ∧ (changedPaths s = [] →
          (statusSnapshot s ("main")).modified = []
          ∧ (statusSnapshot s ("main")).untracked = []
          ∧ (statusSnapshot s ("main")).staged = []))
    ∧ (e.code ≠ GitErrorCode.unbornBranch →
      GitManager.get_status { repo := some s }
        = Except.error (GitError.backend e)) := by
  constructor
  · intro hc
    refine ⟨?_, rfl, rfl, ?_⟩
    · simp only [GitManager.get_status, he, hc, if_pos]
    · intro hch
      refine ⟨?_, ?_, ?_⟩ <;> simp [statusSnapshot, hch]
  · intro hc
    simp only [GitManager.get_status, he]
    rw [if_neg hc]

theorem c3_unborn_status_default_branch_witness :
    c3Repo.head = Except.error c3Err
    ∧ ((c3Err.code = GitErrorCode.unbornBranch →
        GitManager.get_status { repo := some c3Repo }
            = Except.ok (statusSnapshot c3Repo ("main"))
        ∧ (statusSnapshot c3Repo ("main")).branch = "main"
        ∧ (statusSnapshot c3Repo ("main")).is_git_repo = true
        ∧ (changedPaths c3Repo = [] →
            (statusSnapshot c3Repo ("main")).modified = []
            ∧ (statusSnapshot c3Repo ("main")).untracked = []
            ∧ (statusSnapshot c3Repo ("main")).staged = []))
      ∧ (c3Err.code ≠ GitErrorCode.unbornBranch →
        GitManager.get_status { repo := some c3Repo }
          = Except.error (GitError.backend c3Err))) :=
  ⟨rfl, c3_unborn_status_default_branch c3Repo c3Err rfl⟩

/-- Any successful get_status on an open repository returns a status
snapshot for some branch name. -/
theorem get_status_ok_snapshot {s : RepoState} {st : GitStatus}
    (hok : GitManager.get_status { repo := some s } = Except.ok st) :
    ∃ br, st = statusSnapshot s br := by
  cases hh : s.head with
  | ok hr =>
    have h1 : GitManager.get_status { repo := some s }
        = Except.ok (statusSnapshot s (hr.shorthand.getD ("HEAD"))) := by
      simp only [GitManager.get_status, hh]
    rw [h1] at hok
    exact ⟨_, (Except.ok.inj hok).symm⟩
  | error e =>
    by_cases hc : e.code = GitErrorCode.unbornBranch
    · have h1 : GitManager.get_status { repo := some s }
          = Except.ok (statusSnapshot s ("main")) := by
        simp only [GitManager.get_status, hh, hc, if_pos]
      rw [h1] at hok
      exact ⟨_, (Except.ok.inj hok).symm⟩
    · have h1 : GitManager.get_status { repo := some s }
          = Except.error (GitError.backend e) := by
        simp only [GitManager.get_status, hh]
        rw [if_neg hc]
      rw [h1] at hok
      cases hok

/-- C8: whenever get_status succeeds, each changed path lands in
exactly one of the three lists, decided by testing the status bits in
source order — WT_MODIFIED to modified, then WT_NEW to untracked, then
INDEX_MODIFIED to staged, then INDEX_NEW to staged — and a path whose
status matches none of the four bits appears in none of the lists. -/
theorem c8_status_classification_order (s : RepoState) (st : GitStatus) (p : String)
    (hok : GitManager.get_status { repo := some s } = Except.ok st) :
    (p ∈ st.modified ↔
      wtModifiedF (lookupA p s.index) (lookupA p s.worktree) = true)
    ∧ (p ∈ st.untracked ↔
      (wtModifiedF (lookupA p s.index) (lookupA p s.worktree) = false
        ∧ wtNewF (lookupA p s.index) (lookupA p s.worktree) = true))
    ∧ (p ∈ st.staged ↔
      (wtModifiedF (lookupA p s.index) (lookupA p s.worktree) = false
        ∧ wtNewF (lookupA p s.index) (lookupA p s.worktree) = false
        ∧ (idxModifiedF (lookupA p s.headTree) (lookupA p s.index) = true
          ∨ idxNewF (lookupA p s.headTree) (lookupA p s.index) = true)))
    ∧ ¬(p ∈ st.modified ∧ p ∈ st.untracked)
    ∧ ¬(p ∈ st.modified ∧ p ∈ st.staged)
    ∧ ¬(p ∈ st.untracked ∧ p ∈ st.staged)
    ∧ ((wtModifiedF (lookupA p s.index) (lookupA p s.worktree) = false
        ∧ wtNewF (lookupA p s.index) (lookupA p s.worktree) = false
        ∧ idxModifiedF (lookupA p s.headTree) (lookupA p s.index) = false
        ∧ idxNewF (lookupA p s.headTree) (lookupA p s.index) = false) →
      p ∉ st.modified ∧ p ∉ st.untracked ∧ p ∉ st.staged) := by
  obtain ⟨br, rfl⟩ := get_status_ok_snapshot hok
  have hm := @mem_snapshot_modified s br p
  have hu := @mem_snapshot_untracked s br p
  have hsg := @mem_snapshot_staged s br p
  refine ⟨hm, hu, hsg, ?_, ?_, ?_, ?_⟩
  · rintro ⟨ha, hb⟩
    rw [hm] at ha
    rw [hu] at hb
    simp [ha] at hb
  · rintro ⟨ha, hb⟩
    rw [hm] at ha
    rw [hsg] at hb
    simp [ha] at hb
  · rintro ⟨ha, hb⟩
    rw [hu] at ha
    rw [hsg] at hb
    simp [ha.2] at hb
  · rintro ⟨h1, h2, h3, h4⟩
    refine ⟨?_, ?_, ?_⟩
    · rw [hm]; simp [h1]
    · rw [hu]; simp [h2]
    · rw [hsg]; simp [h3, h4]

/-- A repository with one committed file f whose working-tree copy was
edited: f is classified modified. -/
def c8Repo : RepoState :=
  { head := .ok { shorthand := some "main", target := some 0 }
  , commits := [(0, { parents := [], message := "init", author := "Alice", time := 0 })]
  , refs := [], localBranches := [("main")], remotes := []
  , userName := some "Alice", userEmail := some "alice@example.com"
  , configReadable := true
  , headTree := [(("f"), ("a"))]
  , index := [(("f"), ("a"))]
  , worktree := [(("f"), ("b"))]
  , keyring := [], agentKeys := [], pushOutcome := .ok ()
  , fetchOutcome := .ok (), nextOid := 1, now := 10 }

theorem c8_status_classification_order_witness :
    GitManager.get_status { repo := some c8Repo }
        = Except.ok (statusSnapshot c8Repo ("main"))
    ∧ ((("f") ∈ (statusSnapshot c8Repo ("main")).modified ↔
        wtModifiedF (lookupA ("f") c8Repo.index) (lookupA ("f") c8Repo.worktree) = true)
      ∧ ((("f") ∈ (statusSnapshot c8Repo ("main")).untracked ↔
        (wtModifiedF (lookupA ("f") c8Repo.index) (lookupA ("f") c8Repo.worktree) = false
          ∧ wtNewF (lookupA ("f") c8Repo.index) (lookupA ("f") c8Repo.worktree) = true)))
      ∧ ((("f") ∈ (statusSnapshot c8Repo ("main")).staged ↔
        (wtModifiedF (lookupA ("f") c8Repo.index) (lookupA ("f") c8Repo.worktree) = false
          ∧ wtNewF (lookupA ("f") c8Repo.index) (lookupA ("f") c8Repo.worktree) = false
          ∧ (idxModifiedF (lookupA ("f") c8Repo.headTree) (lookupA ("f") c8Repo.index) = true
            ∨ idxNewF (lookupA ("f") c8Repo.headTree) (lookupA ("f") c8Repo.index) = true))))
      ∧ ¬(("f") ∈ (statusSnapshot c8Repo ("main")).modified
          ∧ ("f") ∈ (statusSnapshot c8Repo ("main")).untracked)
      ∧ ¬(("f") ∈ (statusSnapshot c8Repo ("main")).modified
          ∧ ("f") ∈ (statusSnapshot c8Repo ("main")).staged)
      ∧ ¬(("f") ∈ (statusSnapshot c8Repo ("main")).untracked
          ∧ ("f") ∈ (statusSnapshot c8Repo ("main")).staged)
      ∧ ((wtModifiedF (lookupA ("f") c8Repo.index) (lookupA ("f") c8Repo.worktree) = false
          ∧ wtNewF (lookupA ("f") c8Repo.index) (lookupA ("f") c8Repo.worktree) = false
          ∧ idxModifiedF (lookupA ("f") c8Repo.headTree) (lookupA ("f") c8Repo.index) = false
          ∧ idxNewF (lookupA ("f") c8Repo.headTree) (lookupA ("f") c8Repo.index) = false) →
        ("f") ∉ (statusSnapshot c8Repo ("main")).modified
        ∧ ("f") ∉ (statusSnapshot c8Repo ("main")).untracked
        ∧ ("f") ∉ (statusSnapshot c8Repo ("main")).staged)) :=
  ⟨rfl, c8_status_classification_order c8Repo (statusSnapshot c8Repo ("main")) ("f") rfl⟩
/-- A repository with one committed file f, edited in the working tree
(classified modified before any staging). -/
def c4Repo : RepoState :=
  { head := .ok { shorthand := some "main", target := some 0 }
  , commits := [(0, { parents := [], message := "init", author := "Alice", time := 0 })]
  , refs := [], localBranches := [("main")], remotes := []
  , userName := some "Alice", userEmail := some "alice@example.com"
  , configReadable := true
  , headTree := [(("f"), ("a"))]
  , index := [(("f"), ("a"))]
  , worktree := [(("f"), ("b"))]
  , keyring := [], agentKeys := [], pushOutcome := .ok ()
  , fetchOutcome := .ok (), nextOid := 1, now := 10 }

/-- C4, counterexample: a tracked file f that was classified modified
does not return to modified after the stage/unstage round trip —
unstage_file removes the index entry outright (a staged deletion), so
f is afterwards classified untracked. -/
theorem c4_round_trip_changes_classification :
    ∃ s1 s2 st0 st2,
      GitManager.get_status { repo := some c4Repo } = Except.ok st0
      ∧ st0.modified = [("f")]
      ∧ st0.untracked = []
      ∧ GitManager.stage_file { repo := some c4Repo } ("f") = Except.ok s1
      ∧ GitManager.unstage_file { repo := some s1 } ("f") = Except.ok s2
      ∧ GitManager.get_status { repo := some s2 } = Except.ok st2
      ∧ st2.modified = []
      ∧ st2.untracked = [("f")] := by
  refine ⟨_, _, _, _, rfl, ?_, ?_, rfl, rfl, rfl, ?_, ?_⟩ <;> decide

/-- C4, amended: for a file f present in the working tree, stage(f)
records its working-tree content in the index, after which get_status
reports f in neither untracked nor modified, and in staged exactly
when that content differs from the HEAD version (a file identical to
HEAD appears in no list).  A following unstage(f) removes the index
entry, after which get_status reports f as untracked — so the round
trip restores the prior classification exactly when f was untracked,
while a tracked modified file is reclassified untracked. -/
theorem c4_stage_unstage_classification (s : RepoState) (f c : String)
    (hw : lookupA f s.worktree = some c) :
    ∃ s1, GitManager.stage_file { repo := some s } f = Except.ok s1
      ∧ (∀ st, GitManager.get_status { repo := some s1 } = Except.ok st →
          f ∉ st.modified ∧ f ∉ st.untracked
          ∧ (f ∈ st.staged ↔ lookupA f s.headTree ≠ some c))
      ∧ ∃ s2, GitManager.unstage_file { repo := some s1 } f = Except.ok s2
        ∧ (∀ st, GitManager.get_status { repo := some s2 } = Except.ok st →
            f ∈ st.untracked ∧ f ∉ st.modified ∧ f ∉ st.staged) := by
  refine ⟨{ s with index := insertKey f c s.index }, ?_, ?_, ?_⟩
  · simp only [GitManager.stage_file, hw]
  · intro st hok
    obtain ⟨br, rfl⟩ := get_status_ok_snapshot hok
    refine ⟨?_, ?_, ?_⟩
    · rw [mem_snapshot_modified]
      simp [lookupA_insertKey_self, hw, wtModifiedF]
    · rw [mem_snapshot_untracked]
      simp [lookupA_insertKey_self, wtNewF]
    · rw [mem_snapshot_staged]
      simp only [lookupA_insertKey_self, hw, wtModifiedF, wtNewF]
      simp only [Option.isNone_some, Bool.false_and, decide_not]
      cases hh : lookupA f s.headTree with
      | none => simp [idxModifiedF, idxNewF]
      | some a => simp [idxModifiedF, idxNewF]
  · refine ⟨_, rfl, ?_⟩
    intro st hok
    obtain ⟨br, rfl⟩ := get_status_ok_snapshot hok
    refine ⟨?_, ?_, ?_⟩
    · rw [mem_snapshot_untracked]
      simp [lookupA_eraseKey_self, hw, wtModifiedF, wtNewF]
    · rw [mem_snapshot_modified]
      simp [lookupA_eraseKey_self, wtModifiedF]
    · rw [mem_snapshot_staged]
      simp [lookupA_eraseKey_self, hw, wtNewF]

theorem c4_stage_unstage_classification_witness :
    lookupA ("f") c4Repo.worktree = some ("b")
    ∧ (∃ s1, GitManager.stage_file { repo := some c4Repo } ("f") = Except.ok s1
      ∧ (∀ st, GitManager.get_status { repo := some s1 } = Except.ok st →
          ("f") ∉ st.modified ∧ ("f") ∉ st.untracked
          ∧ (("f") ∈ st.staged ↔ lookupA ("f") c4Repo.headTree ≠ some ("b")))
      ∧ ∃ s2, GitManager.unstage_file { repo := some s1 } ("f") = Except.ok s2
        ∧ (∀ st, GitManager.get_status { repo := some s2 } = Except.ok st →
            ("f") ∈ st.untracked ∧ ("f") ∉ st.modified ∧ ("f") ∉ st.staged)) :=
  ⟨rfl, c4_stage_unstage_classification c4Repo ("f") ("b") rfl⟩

/-- The state commit produces in the parented topology: one new commit
whose single parent is the old HEAD target, the HEAD reference moved
to it. -/
def parentedCommitState (s : RepoState) (sh : Option String) (t : Nat)
    (m nm : String) : RepoState :=
  { s with
    commits := (s.nextOid,
      { parents := [t], message := m, author := nm, time := s.now }) :: s.commits
    headTree := s.index
    head := Except.ok { shorthand := sh, target := some s.nextOid }
    nextOid := s.nextOid + 1 }

/-- The state commit produces in the root topology: one new parentless
commit written to refs/heads/main, HEAD pointed at that reference. -/
def rootCommitState (s : RepoState) (m nm : String) : RepoState :=
  { s with
    commits := (s.nextOid,
      { parents := [], message := m, author := nm, time := s.now }) :: s.commits
    headTree := s.index
    refs := insertKey ("refs/heads/main") s.nextOid s.refs
    localBranches :=
      if s.localBranches.contains ("main") then s.localBranches
      else ("main") :: s.localBranches
    head := Except.ok { shorthand := some ("main"), target := some s.nextOid }
    nextOid := s.nextOid + 1 }

theorem commit_parented_eq (s : RepoState) (m : String) {nm em : String}
    (hn : s.userName = some nm) (he : s.userEmail = some em)
    {hr : HeadRef} {t : Nat} (hhead : s.head = Except.ok hr)
    (ht : hr.target = some t)
    {p : CommitObj} (hp : lookupA t s.commits = some p) :
    GitManager.commit { repo := some s } m
      = Except.ok (parentedCommitState s hr.shorthand t m nm, toString s.nextOid) := by
  have hsig : s.signature = Except.ok { name := nm, email := em } := by
    rw [RepoState.signature, hn, he]
  simp only [GitManager.commit, hsig, hhead, ht, hp, parentedCommitState]

theorem commit_unborn_eq (s : RepoState) (m : String) {nm em : String}
    (hn : s.userName = some nm) (he : s.userEmail = some em)
    {e : GitErr} (hhead : s.head = Except.error e)
    (hcode : e.code = GitErrorCode.unbornBranch) :
    GitManager.commit { repo := some s } m
      = Except.ok (rootCommitState s m nm, toString s.nextOid) := by
  have hsig : s.signature = Except.ok { name := nm, email := em } := by
    rw [RepoState.signature, hn, he]
  simp [GitManager.commit, hsig, hhead, hcode, rootCommitState]

/-- C2: commit chooses its parent topology from HEAD resolution.  If
HEAD resolves to a target commit, the new commit has exactly one
parent, the current HEAD target.  If HEAD resolution fails with the
unborn-branch condition, the new commit has zero parents, is written
to refs/heads/main, and HEAD is pointed at that reference — and a
second commit then has exactly one parent equal to the first.  Any
other HEAD-resolution failure makes commit fail with the propagated
error. -/
theorem c2_commit_parent_topology (s : RepoState) (m1 m2 nm em : String)
    (hn : s.userName = some nm) (he : s.userEmail = some em) :
    (∀ hr t, s.head = Except.ok hr → hr.target = some t →
      (lookupA t s.commits).isSome →
      ∃ s1 c, GitManager.commit { repo := some s } m1
          = Except.ok (s1, toString s.nextOid)
        ∧ lookupA s.nextOid s1.commits = some c
        ∧ c.parents = [t])
    ∧ (∀ e, s.head = Except.error e → e.code = GitErrorCode.unbornBranch →
      ∃ s1 c, GitManager.commit { repo := some s } m1
          = Except.ok (s1, toString s.nextOid)
        ∧ lookupA s.nextOid s1.commits = some c
        ∧ c.parents = []
        ∧ lookupA ("refs/heads/main") s1.refs = some s.nextOid
        ∧ s1.head = Except.ok { shorthand := some ("main"), target := some s.nextOid }
        ∧ ∃ s2 c2, GitManager.commit { repo := some s1 } m2
            = Except.ok (s2, toString s1.nextOid)
          ∧ lookupA s1.nextOid s2.commits = some c2
          ∧ c2.parents = [s.nextOid])
    ∧ (∀ e, s.head = Except.error e → e.code ≠ GitErrorCode.unbornBranch →
      GitManager.commit { repo := some s } m1
        = Except.error (GitError.backend e)) := by
  refine ⟨?_, ?_, ?_⟩
  · intro hr t hhead htarget hsome
    obtain ⟨p, hp⟩ := Option.isSome_iff_exists.mp hsome
    refine ⟨parentedCommitState s hr.shorthand t m1 nm,
      { parents := [t], message := m1, author := nm, time := s.now },
      commit_parented_eq s m1 hn he hhead htarget hp, ?_, rfl⟩
    simp [parentedCommitState, lookupA]
  · intro e hhead hcode
    refine ⟨rootCommitState s m1 nm,
      { parents := [], message := m1, author := nm, time := s.now },
      commit_unborn_eq s m1 hn he hhead hcode, ?_, rfl, ?_, rfl, ?_⟩
    · simp [rootCommitState, lookupA]
    · simp [rootCommitState, lookupA_insertKey_self]
    · have hp1 : lookupA s.nextOid (rootCommitState s m1 nm).commits
          = some { parents := [], message := m1, author := nm, time := s.now } := by
        simp [rootCommitState, lookupA]
      refine ⟨parentedCommitState (rootCommitState s m1 nm) (some ("main"))
          s.nextOid m2 nm,
        { parents := [s.nextOid], message := m2, author := nm
        , time := (rootCommitState s m1 nm).now },
        commit_parented_eq (rootCommitState s m1 nm) m2 hn he rfl rfl hp1, ?_, rfl⟩
      simp [parentedCommitState, lookupA]
  · intro e hhead hcode
    have hsig : s.signature = Except.ok { name := nm, email := em } := by
      rw [RepoState.signature, hn, he]
    simp only [GitManager.commit, hsig, hhead]
    rw [if_neg hcode]

/-- The unborn-HEAD error of the C2 witness repository. -/
def c2Err : GitErr :=
  { code := GitErrorCode.unbornBranch, msg := "reference not found" }

/-- A fresh repository with identity configured and one staged file,
ready for its first commit. -/
def c2Repo : RepoState :=
  { head := .error c2Err
  , commits := [], refs := [], localBranches := [], remotes := []
  , userName := some "Alice", userEmail := some "alice@example.com"
  , configReadable := true, headTree := []
  , index := [(("f"), ("x"))]
  , worktree := [(("f"), ("x"))]
  , keyring := [], agentKeys := [], pushOutcome := .ok ()
  , fetchOutcome := .ok (), nextOid := 0, now := 0 }

theorem c2_commit_parent_topology_witness :
    c2Repo.userName = some ("Alice")
    ∧ c2Repo.userEmail = some ("alice@example.com")
    ∧ c2Repo.head = Except.error c2Err
    ∧ c2Err.code = GitErrorCode.unbornBranch
    ∧ (∃ s1 c, GitManager.commit { repo := some c2Repo } ("m1")
          = Except.ok (s1, toString c2Repo.nextOid)
        ∧ lookupA c2Repo.nextOid s1.commits = some c
        ∧ c.parents = []
        ∧ lookupA ("refs/heads/main") s1.refs = some c2Repo.nextOid
        ∧ s1.head = Except.ok { shorthand := some ("main"), target := some c2Repo.nextOid }
        ∧ ∃ s2 c2, GitManager.commit { repo := some s1 } ("m2")
            = Except.ok (s2, toString s1.nextOid)
          ∧ lookupA s1.nextOid s2.commits = some c2
          ∧ c2.parents = [c2Repo.nextOid]) :=
  ⟨rfl, rfl, rfl, rfl,
    (c2_commit_parent_topology c2Repo ("m1") ("m2") ("Alice") ("alice@example.com")
      rfl rfl).2.1 c2Err rfl rfl⟩

theorem commitRecordOf_timestamp (s : RepoState) (u : List Nat) (o : Nat) :
    (commitRecordOf s u o).timestamp = commitTime s o := by
  cases hl : lookupA o s.commits with
  | none => simp only [commitRecordOf, commitTime, hl]; rfl
  | some c => simp [commitRecordOf, commitTime, hl]

theorem forall₂_map_self {α β : Type} (l : List α) (f : α → β)
    (P : α → β → Prop) (h : ∀ a ∈ l, P a (f a)) :
    List.Forall₂ P l (l.map f) := by
  induction l with
  | nil => exact List.Forall₂.nil
  | cons x xs ih =>
    exact List.Forall₂.cons (h x (List.mem_cons_self _ _))
      (ih (fun a ha => h a (List.mem_cons_of_mem _ ha)))

/-- C6: on a repository whose HEAD resolves to a commit of a
parent-closed object database, get_recent_commits(limit) succeeds and
returns at most `limit` records, ordered newest-first starting from
the HEAD commit (first record is HEAD; with clock-consistent history
the timestamps are descending); each record carries the walked oid and
an on-upstream flag equal to membership of that oid in the bounded
upstream ancestor set — the walk from the refs/remotes/origin tip of
the HEAD branch capped at 1000 oids, whose members are all genuine
ancestors of the tip and which is exactly the ancestor set whenever
the tip has at most 1000 reachable ancestors; when no upstream
tracking reference is configured every record has the flag false. -/
theorem c6_recent_commits_newest_first_capped_upstream (s : RepoState)
    (hr : HeadRef) (t limit : Nat)
    (hhead : s.head = Except.ok hr)
    (htarget : hr.target = some t)
    (ht : (lookupA t s.commits).isSome)
    (hclosed : graphClosed s = true) :
    ∃ records,
      GitManager.get_recent_commits { repo := some s } limit = Except.ok records
      ∧ records.length ≤ limit
      ∧ (0 < limit → records.head?.map (fun r => r.hash) = some (toString t))
      ∧ (timesMonotone s = true →
          records.Sorted (fun a b => b.timestamp ≤ a.timestamp))
      ∧ List.Forall₂ (fun o r =>
            r.hash = toString o
            ∧ r.is_on_upstream = ((cappedUpstreamSet s hr).contains o)
            ∧ r.timestamp = commitTime s o)
          ((revwalk s t).take limit) records
      ∧ (cappedUpstreamSet s hr).length ≤ 1000
      ∧ (∀ bn up, hr.shorthand = some bn →
          lookupA ("refs/remotes/origin/" ++ bn) s.refs = some up →
          (∀ o ∈ cappedUpstreamSet s hr, ReachableFrom s up o)
          ∧ ((revwalk s up).length ≤ 1000 →
              ∀ o, o ∈ cappedUpstreamSet s hr ↔ ReachableFrom s up o))
      ∧ ((∀ bn, hr.shorthand = some bn →
            lookupA ("refs/remotes/origin/" ++ bn) s.refs = none) →
          ∀ r, r ∈ records → r.is_on_upstream = false) := by
  have hall : ∀ o ∈ (revwalk s t).take limit, (lookupA o s.commits).isSome := by
    intro o ho
    exact reachable_isSome hclosed ht (revwalk_sound (List.take_subset _ _ ho))
  refine ⟨((revwalk s t).take limit).map (commitRecordOf s (cappedUpstreamSet s hr)),
    ?_, ?_, ?_, ?_, ?_, ?_, ?_, ?_⟩
  · simp only [GitManager.get_recent_commits, hhead, htarget]
    exact mapM_recentStep hall
  · rw [List.length_map, List.length_take]
    exact min_le_left _ _
  · intro hl
    obtain ⟨rest, hw⟩ := @revwalk_cons s t
    cases limit with
    | zero => cases hl
    | succ n =>
      rw [hw, List.take_succ_cons, List.map_cons]
      rfl
  · intro hm
    have h1 : ((revwalk s t).take limit).Sorted
        (fun x y => commitTime s y ≤ commitTime s x) :=
      List.Pairwise.sublist (List.take_sublist _ _) (revwalk_sorted hm t)
    refine List.Pairwise.map _ ?_ h1
    intro a b hab
    rw [commitRecordOf_timestamp, commitRecordOf_timestamp]
    exact hab
  · refine forall₂_map_self _ _ _ ?_
    intro a ha
    exact ⟨rfl, rfl, commitRecordOf_timestamp s _ a⟩
  · cases hsh : hr.shorthand with
    | none => simp [cappedUpstreamSet, hsh]
    | some bn =>
      cases hlu : lookupA ("refs/remotes/origin/" ++ bn) s.refs with
      | none => simp [cappedUpstreamSet, hsh, hlu]
      | some up =>
        simp only [cappedUpstreamSet, hsh, hlu]
        exact List.length_take_le _ _
  · intro bn up hsh hlu
    have hcap : cappedUpstreamSet s hr = (revwalk s up).take 1000 := by
      simp [cappedUpstreamSet, hsh, hlu]
    constructor
    · intro o ho
      rw [hcap] at ho
      exact revwalk_sound (List.take_subset _ _ ho)
    · intro hlen o
      rw [hcap, List.take_of_length_le hlen]
      exact ⟨revwalk_sound, revwalk_complete⟩
  · intro hno r hrmem
    obtain ⟨o, ho, rfl⟩ := List.mem_map.1 hrmem
    have hcap : cappedUpstreamSet s hr = [] := by
      cases hsh : hr.shorthand with
      | none => simp [cappedUpstreamSet, hsh]
      | some bn => simp [cappedUpstreamSet, hsh, hno bn hsh]
    simp [commitRecordOf, hcap]

/-- A repository with three commits 1 ← 2 ← 3 on main, the
remote-tracking branch origin/main at commit 2. -/
def c6Repo : RepoState :=
  { head := .ok { shorthand := some "main", target := some 3 }
  , commits :=
      [(3, { parents := [2], message := "three", author := "Alice", time := 30 })
      , (2, { parents := [1], message := "two", author := "Alice", time := 20 })
      , (1, { parents := [], message := "one", author := "Alice", time := 10 })]
  , refs := [(("refs/remotes/origin/main"), 2)]
  , localBranches := [("main")]
  , remotes := [("origin", { url := some "https://example.com/repo.git", fetchRefspecs := [] })]
  , userName := some "Alice", userEmail := some "alice@example.com"
  , configReadable := true, headTree := [], index := [], worktree := []
  , keyring := [], agentKeys := [], pushOutcome := .ok ()
  , fetchOutcome := .ok (), nextOid := 4, now := 40 }

/-- The HEAD reference of the C6 witness repository. -/
def c6Head : HeadRef := { shorthand := some "main", target := some 3 }

theorem c6_recent_commits_newest_first_capped_upstream_witness :
    c6Repo.head = Except.ok c6Head
    ∧ c6Head.target = some 3
    ∧ (lookupA 3 c6Repo.commits).isSome = true
    ∧ graphClosed c6Repo = true
    ∧ (∃ records,
        GitManager.get_recent_commits { repo := some c6Repo } 5 = Except.ok records
        ∧ records.length ≤ 5
        ∧ (0 < 5 → records.head?.map (fun r => r.hash) = some (toString 3))
        ∧ (timesMonotone c6Repo = true →
            records.Sorted (fun a b => b.timestamp ≤ a.timestamp))
        ∧ List.Forall₂ (fun o r =>
              r.hash = toString o
              ∧ r.is_on_upstream = ((cappedUpstreamSet c6Repo c6Head).contains o)
              ∧ r.timestamp = commitTime c6Repo o)
            ((revwalk c6Repo 3).take 5) records
        ∧ (cappedUpstreamSet c6Repo c6Head).length ≤ 1000
        ∧ (∀ bn up, c6Head.shorthand = some bn →
            lookupA ("refs/remotes/origin/" ++ bn) c6Repo.refs = some up →
            (∀ o ∈ cappedUpstreamSet c6Repo c6Head, ReachableFrom c6Repo up o)
            ∧ ((revwalk c6Repo up).length ≤ 1000 →
                ∀ o, o ∈ cappedUpstreamSet c6Repo c6Head ↔ ReachableFrom c6Repo up o))
        ∧ ((∀ bn, c6Head.shorthand = some bn →
              lookupA ("refs/remotes/origin/" ++ bn) c6Repo.refs = none) →
            ∀ r, r ∈ records → r.is_on_upstream = false)) :=
  ⟨rfl, rfl, by decide, by decide,
    c6_recent_commits_newest_first_capped_upstream c6Repo c6Head 3 5 rfl rfl
      (by decide) (by decide)⟩
